import Mathlib

/-
Verification of the keyword/pattern extraction pipeline of the
Community-AI-Governance-Research repository.  The Python sources are
shallowly embedded: strings become `List Char`, `dict`/`Counter` become
insertion-ordered association lists, fallible fetches become `Except`,
and console output becomes explicit log values.
-/

namespace CommAIGov

/-- Python whitespace characters (the ASCII part of `str.strip` and `\s`). -/
def isPySpace (c : Char) : Bool :=
  c = ' ' || c = '\t' || c = '\n' || c = '\r' || c = '\x0b' || c = '\x0c'

/-- Python `str.strip()`: drop leading and trailing whitespace. -/
def pyStrip (s : List Char) : List Char :=
  ((s.dropWhile isPySpace).reverse.dropWhile isPySpace).reverse

/-- Lower-case an ASCII character (model of `str.lower` on the data we scan). -/
def lowerChar (c : Char) : Char :=
  if 'A' ≤ c ∧ c ≤ 'Z' then Char.ofNat (c.toNat + 32) else c

/-- Lower-case a string, used to model `re.IGNORECASE` and `str.lower()`. -/
def lowerStr (s : List Char) : List Char := s.map lowerChar

/-- Section record produced by `parse_talk_sections`
(wikipedia_ai_enforcement_analyzer.py and the targeted variant):
a title and the accumulated body text. -/
structure TalkSection where
  title : List Char
  content : List Char
deriving DecidableEq

/-- Title given to text preceding the first heading in `parse_talk_sections`. -/
def introTitle : List Char := "Introduction".toList

/-- Heading test for one line, modelling Python
`re.match(r'^(={2,})\s*([^=]+?)\s*\1\s*$', line)` together with the
`match.group(2).strip()` the caller performs.  The regex accepts exactly the
lines of the form: an opening run of `k ≥ 2` equals signs (the run is maximal,
since the character after group 1 may not be `=`), a non-empty equals-free
middle, a closing run of exactly `k` equals signs (the backreference `\1`),
then trailing whitespace.  The extracted title is the stripped middle. -/
def headerTitle (line : List Char) : Option (List Char) :=
  let k := (line.takeWhile (fun c => c = '=')).length
  if k < 2 then none
  else
    let rest := line.drop k
    let mid := rest.takeWhile (fun c => c ≠ '=')
    let rest2 := rest.drop mid.length
    let k2 := (rest2.takeWhile (fun c => c = '=')).length
    let ws := rest2.drop k2
    if mid ≠ [] ∧ k2 = k ∧ ws.all isPySpace then some (pyStrip mid) else none

/-- One step of the `parse_talk_sections` loop body: on a heading line the
current section is flushed (only if its content is non-empty) and a fresh
section is opened; on any other line the line plus a newline is appended to
the current section's content. -/
def parseStep (st : TalkSection × List TalkSection) (line : List Char) :
    TalkSection × List TalkSection :=
  match headerTitle line with
  | some t => ⟨⟨t, []⟩, if st.1.content ≠ [] then st.2 ++ [st.1] else st.2⟩
  | none => ⟨⟨st.1.title, st.1.content ++ line ++ ['\n']⟩, st.2⟩

/-- Final flush after the loop of `parse_talk_sections`: the last section is
appended only if its content is non-empty. -/
def parseFlush (st : TalkSection × List TalkSection) : List TalkSection :=
  if st.1.content ≠ [] then st.2 ++ [st.1] else st.2

/-- Embedding of `parse_talk_sections(content)`: split on newlines, fold the
loop body over the lines starting from an empty "Introduction" section, then
flush the final section. -/
def parseTalkSections (content : List Char) : List TalkSection :=
  parseFlush ((content.splitOn '\n').foldl parseStep (⟨introTitle, []⟩, []))

/-- Join a list of lines back, appending a newline to every line; this is the
body text `parse_talk_sections` accumulates when no line is a heading. -/
def joinNl (lines : List (List Char)) : List Char :=
  (lines.map (fun l => l ++ ['\n'])).flatten

theorem joinNl_modifyHead (a : Char) (xs : List (List Char)) (h : xs ≠ []) :
    joinNl (xs.modifyHead (List.cons a)) = a :: joinNl xs := by
  cases xs with
  | nil => exact absurd rfl h
  | cons x rest => simp [joinNl]

theorem joinNl_splitOn (doc : List Char) :
    joinNl (doc.splitOn '\n') = doc ++ ['\n'] := by
  induction doc with
  | nil => simp [joinNl, List.splitOn]
  | cons a doc ih =>
    by_cases ha : a = '\n'
    · subst ha
      simp only [List.splitOn, List.splitOnP_cons, beq_self_eq_true, if_pos] at ih ⊢
      simp [joinNl] at ih ⊢
      exact ih
    · have hne : (a == '\n') = false := by simp [ha]
      simp only [List.splitOn, List.splitOnP_cons, hne, if_neg Bool.false_ne_true] at ih ⊢
      rw [joinNl_modifyHead a _ (List.splitOnP_ne_nil _ doc), ih]
      rfl

theorem foldl_parseStep_no_heading (lines : List (List Char))
    (h : ∀ l ∈ lines, headerTitle l = none) (t : List Char) (c : List Char)
    (acc : List TalkSection) :
    lines.foldl parseStep (⟨t, c⟩, acc) = (⟨t, c ++ joinNl lines⟩, acc) := by
  induction lines generalizing c with
  | nil => simp [joinNl]
  | cons l ls ih =>
    have hl : headerTitle l = none := h l (by simp)
    simp only [List.foldl_cons, parseStep, hl]
    rw [ih (fun x hx => h x (by simp [hx])) (c ++ l ++ ['\n'])]
    simp [joinNl, List.append_assoc]

theorem foldl_parseStep_all_headings (lines : List (List Char))
    (h : ∀ l ∈ lines, headerTitle l ≠ none) (t : List Char)
    (acc : List TalkSection) :
    ∃ t2, lines.foldl parseStep (⟨t, []⟩, acc) = (⟨t2, []⟩, acc) := by
  induction lines generalizing t with
  | nil => exact ⟨t, rfl⟩
  | cons l ls ih =>
    have hl : headerTitle l ≠ none := h l (by simp)
    cases hh : headerTitle l with
    | none => exact absurd hh hl
    | some u =>
      simp only [List.foldl_cons, parseStep, hh]
      exact ih (fun x hx => h x (by simp [hx])) u

theorem parseFlush_foldl_content_ne_nil (lines : List (List Char))
    (cur : TalkSection) (acc : List TalkSection)
    (hacc : ∀ s ∈ acc, s.content ≠ []) :
    ∀ s ∈ parseFlush (lines.foldl parseStep (cur, acc)), s.content ≠ [] := by
  induction lines generalizing cur acc with
  | nil =>
    intro s hs
    simp only [List.foldl_nil, parseFlush] at hs
    by_cases hc : cur.content = []
    · rw [if_neg (by simp [hc])] at hs
      exact hacc s hs
    · rw [if_pos hc] at hs
      rcases List.mem_append.1 hs with h | h
      · exact hacc s h
      · rwa [List.mem_singleton.1 h]
  | cons l ls ih =>
    intro s hs
    simp only [List.foldl_cons] at hs
    rcases hh : headerTitle l with _ | t
    · simp only [parseStep, hh] at hs
      exact ih _ acc hacc s hs
    · simp only [parseStep, hh] at hs
      by_cases hc : cur.content = []
      · rw [if_neg (by simp [hc])] at hs
        exact ih _ acc hacc s hs
      · rw [if_pos hc] at hs
        refine ih _ (acc ++ [cur]) ?_ s hs
        intro u hu
        rcases List.mem_append.1 hu with h | h
        · exact hacc u h
        · rwa [List.mem_singleton.1 h]

/-- Claim C4 (amended): a document none of whose lines is a heading line is
returned by `parse_talk_sections` as exactly one Section titled
"Introduction" whose body is the whole document with one newline appended to
every line (so the body equals the document followed by a trailing newline);
a document all of whose lines are heading lines yields zero sections. -/
theorem c4_no_heading_single_intro_and_all_heading_empty (doc : List Char) :
    ((∀ l ∈ doc.splitOn '\n', headerTitle l = none) →
      parseTalkSections doc = [⟨introTitle, doc ++ ['\n']⟩]) ∧
    ((∀ l ∈ doc.splitOn '\n', headerTitle l ≠ none) →
      parseTalkSections doc = []) := by
  constructor
  · intro h
    unfold parseTalkSections
    rw [foldl_parseStep_no_heading (doc.splitOn '\n') h introTitle [] []]
    rw [List.nil_append, joinNl_splitOn, parseFlush]
    simp
  · intro h
    unfold parseTalkSections
    obtain ⟨t2, ht2⟩ := foldl_parseStep_all_headings (doc.splitOn '\n') h introTitle []
    rw [ht2, parseFlush]
    simp

/-- Claim C4, counterexample to the claim as stated: the document "hello"
contains no heading-marker line, and the splitter does return exactly one
"Introduction" section, but its body is "hello\n", not the document itself:
the loop appends a newline to every accumulated line. -/
theorem c4_counterexample_trailing_newline :
    (∀ l ∈ ("hello".toList).splitOn '\n', headerTitle l = none) ∧
    parseTalkSections "hello".toList = [⟨introTitle, "hello\n".toList⟩] ∧
    "hello\n".toList ≠ "hello".toList := by
  refine ⟨by decide, ?_, by decide⟩
  have h := (c4_no_heading_single_intro_and_all_heading_empty "hello".toList).1 (by decide)
  rw [h]
  decide

/-- Claim C4, witness: a document consisting of a single heading line
produces zero sections. -/
theorem c4_witness_all_heading :
    parseTalkSections "== A ==".toList = [] :=
  (c4_no_heading_single_intro_and_all_heading_empty "== A ==".toList).2 (by decide)

/-- Claim C5 (amended): every Section emitted by `parse_talk_sections` has a
body that is non-empty as a string; the emptiness check is `content != ''`,
not a whitespace trim, so whitespace-only bodies can still be emitted. -/
theorem c5_emitted_section_content_ne_nil (doc : List Char) (s : TalkSection)
    (hs : s ∈ parseTalkSections doc) : s.content ≠ [] :=
  parseFlush_foldl_content_ne_nil (doc.splitOn '\n') ⟨introTitle, []⟩ []
    (by intro u hu; cases hu) s hs

/-- Claim C5, counterexample to the claim as stated: on the empty document the
splitter emits one section whose body is a single newline, which trims to the
empty string; a section whose body trims to empty is therefore emitted. -/
theorem c5_counterexample_whitespace_body :
    parseTalkSections [] = [⟨introTitle, ['\n']⟩] ∧ pyStrip ['\n'] = [] := by
  constructor
  · decide
  · decide

/-- Claim C5, witness: the section emitted for the empty document has a
non-empty (single newline) body. -/
theorem c5_witness_nonempty_body :
    (⟨introTitle, ['\n']⟩ : TalkSection).content ≠ [] :=
  c5_emitted_section_content_ne_nil [] ⟨introTitle, ['\n']⟩ (by decide)

/-- Word characters of the Python regex `\b` boundary (ASCII model). -/
def isWordChar (c : Char) : Bool := c.isAlpha || c.isDigit || c = '_'

/-- Case-insensitive literal occurrence of pattern `p` in text `t` at
position `j` (model of a `re.IGNORECASE` literal match). -/
def occursAt (p t : List Char) (j : Nat) : Bool :=
  decide (j + p.length ≤ t.length ∧ lowerStr ((t.drop j).take p.length) = lowerStr p)

/-- Word-boundary test at position `j` of `t`: the word-character status
changes between the character before `j` and the character at `j`
(positions outside the text count as non-word). -/
def boundaryAt (t : List Char) (j : Nat) : Bool :=
  (if j = 0 then false else isWordChar (t.getD (j - 1) ' ')) !=
    (if j < t.length then isWordChar (t.getD j ' ') else false)

/-- Occurrence of `p` at `j` in `t` with `\b` on both sides, modelling the
governance analyzer's pattern `r'\b' + re.escape(keyword) + r'\b'` with
`re.IGNORECASE`. -/
def occursAtB (p t : List Char) (j : Nat) : Bool :=
  occursAt p t j && boundaryAt t j && boundaryAt t (j + p.length)

/-- Fuelled scan behind `re.finditer`: starting at `i`, record every hit and
resume after it (non-overlapping), otherwise advance one position; stop when
fewer than a pattern length of characters remain. -/
def scanPosAux (hit : Nat → Bool) (plen n : Nat) : Nat → Nat → List Nat
  | 0, _ => []
  | fuel + 1, i =>
    if i + plen ≤ n then
      if hit i then i :: scanPosAux hit plen n fuel (i + max 1 plen)
      else scanPosAux hit plen n fuel (i + 1)
    else []

/-- Match positions of `re.finditer` over a text of length `n`. -/
def scanPositions (hit : Nat → Bool) (plen n : Nat) : List Nat :=
  scanPosAux hit plen n (n + 1) 0

/-- Case-insensitive substring test, modelling Python
`needle.lower() in hay.lower()`. -/
def containsSub (needle hay : List Char) : Bool :=
  !(scanPositions (occursAt needle hay) needle.length hay.length).isEmpty

/-- Spec-level definition, following the spec's words: the number of
non-overlapping occurrences of a pattern "obtained via an independent scan of
that pattern alone" (fuelled counter, no match records). -/
def specCountAux (hit : Nat → Bool) (plen n : Nat) : Nat → Nat → Nat
  | 0, _ => 0
  | fuel + 1, i =>
    if i + plen ≤ n then
      if hit i then 1 + specCountAux hit plen n fuel (i + max 1 plen)
      else specCountAux hit plen n fuel (i + 1)
    else 0

/-- Spec-level independent non-overlapping occurrence count. -/
def specIndependentCount (hit : Nat → Bool) (plen n : Nat) : Nat :=
  specCountAux hit plen n (n + 1) 0

theorem specCountAux_eq_length (hit : Nat → Bool) (plen n : Nat) :
    ∀ fuel i, specCountAux hit plen n fuel i = (scanPosAux hit plen n fuel i).length := by
  intro fuel
  induction fuel with
  | zero => intro i; rfl
  | succ f ih =>
    intro i
    simp only [specCountAux, scanPosAux]
    by_cases h1 : i + plen ≤ n
    · rw [if_pos h1, if_pos h1]
      by_cases h2 : hit i
      · rw [if_pos h2, if_pos h2, List.length_cons, ih, Nat.add_comm]
      · rw [if_neg h2, if_neg h2, ih]
    · rw [if_neg h1, if_neg h1]; rfl

theorem specIndependentCount_eq (hit : Nat → Bool) (plen n : Nat) :
    specIndependentCount hit plen n = (scanPositions hit plen n).length :=
  specCountAux_eq_length hit plen n (n + 1) 0

theorem scanPosAux_mem (hit : Nat → Bool) (plen n : Nat) :
    ∀ fuel i j, j ∈ scanPosAux hit plen n fuel i → hit j = true ∧ j + plen ≤ n := by
  intro fuel
  induction fuel with
  | zero => intro i j hj; cases hj
  | succ f ih =>
    intro i j hj
    simp only [scanPosAux] at hj
    by_cases h1 : i + plen ≤ n
    · rw [if_pos h1] at hj
      by_cases h2 : hit i
      · rw [if_pos h2] at hj
        rcases List.mem_cons.1 hj with h | h
        · exact ⟨h ▸ h2, h ▸ h1⟩
        · exact ih _ j h
      · rw [if_neg h2] at hj
        exact ih _ j hj
    · rw [if_neg h1] at hj; cases hj

/-- First occurrence at or after position `i` (model of `re.search` restarted
from `i`), fuelled. -/
def firstOccAux (hit : Nat → Bool) (plen n : Nat) : Nat → Nat → Option Nat
  | 0, _ => none
  | fuel + 1, i =>
    if i + plen ≤ n then
      if hit i then some i else firstOccAux hit plen n fuel (i + 1)
    else none

/-- First occurrence at or after `i` over a text of length `n`. -/
def firstOccFrom (hit : Nat → Bool) (plen n i : Nat) : Option Nat :=
  firstOccAux hit plen n (n + 1) i

/-- Largest occurrence inside the 100-character window starting at `s`: this
is where the greedy prefix `.{0,100}` of the AfD context pattern anchors. -/
def lastOccInWindow (hit : Nat → Bool) (s : Nat) : Option Nat :=
  ((List.range 101).reverse.map (fun d => s + d)).find? hit

theorem lastOccInWindow_some (hit : Nat → Bool) (s j : Nat)
    (h : lastOccInWindow hit s = some j) :
    hit j = true ∧ s ≤ j ∧ j ≤ s + 100 := by
  have h1 := List.find?_some h
  have h2 := List.mem_of_find?_eq_some h
  simp only [List.mem_map, List.mem_reverse, List.mem_range] at h2
  obtain ⟨d, hd, hdj⟩ := h2
  subst hdj
  exact ⟨h1, Nat.le_add_right s d, by omega⟩

/-- Context-window matcher of `analyze_afd_text`: the source compiles
`.{0,100}re.escape(indicator).{0,100}` with `IGNORECASE | DOTALL` and calls
`findall`.  A match attempt anchors the indicator on the largest occurrence
within 100 characters of the scan position (greedy prefix`), consumes up to
100 following characters, and the scan resumes at the match end, so
occurrences closer than the window are merged into one match.  The spans
`(start, end)` of the successive matches are returned. -/
def ctxSpansAux (p t : List Char) : Nat → Nat → List (Nat × Nat)
  | 0, _ => []
  | fuel + 1, i =>
    match firstOccFrom (occursAt p t) p.length t.length i with
    | none => []
    | some j1 =>
      let s := max i (j1 - 100)
      match lastOccInWindow (occursAt p t) s with
      | none => []
      | some j =>
        let e := min (j + p.length + 100) t.length
        (s, e) :: ctxSpansAux p t fuel (max e (i + 1))

/-- Spans of `findall` of the AfD context pattern over the whole text. -/
def ctxSpans (p t : List Char) : List (Nat × Nat) :=
  ctxSpansAux p t (t.length + 1) 0

theorem ctxSpansAux_window (p t : List Char) :
    ∀ fuel i se, se ∈ ctxSpansAux p t fuel i →
      ∃ j, occursAt p t j = true ∧ se.1 ≤ j ∧ j ≤ se.1 + 100 ∧
        se.2 = min (j + p.length + 100) t.length := by
  intro fuel
  induction fuel with
  | zero => intro i se hse; cases hse
  | succ f ih =>
    intro i se hse
    simp only [ctxSpansAux] at hse
    split at hse
    · cases hse
    · split at hse
      · cases hse
      · rename_i j1 hj1 j hj2
        rcases List.mem_cons.1 hse with h | h
        · obtain ⟨hj, hsj, hjw⟩ := lastOccInWindow_some _ _ _ hj2
          refine ⟨j, hj, ?_, ?_, ?_⟩ <;> simp [h] <;> omega
        · exact ih _ se h

/-- Replace a newline by a space (the `m.replace('\n', ' ')` step). -/
def nlToSpace (c : Char) : Char := if c = '\n' then ' ' else c

/-- Python slice `t[s:e]`. -/
def slice (t : List Char) (s e : Nat) : List Char := (t.drop s).take (e - s)

/-- One stored example of `analyze_afd_text`: the matched context with
newlines replaced by spaces, truncated to 200 characters
(`m.replace('\n', ' ')[:200]`). -/
def mkExample (t : List Char) (se : Nat × Nat) : List Char :=
  ((slice t se.1 se.2).map nlToSpace).take 200

/-- Entry of `analysis['detection_indicators']`: the indicator, the number of
context matches, and the first two examples. -/
structure IndicatorEntry where
  indicator : List Char
  count : Nat
  examples : List (List Char)
deriving DecidableEq

/-- Inner body of the indicator loop of `analyze_afd_text`: if `re.search`
finds the indicator, run `findall` of the context pattern; when that has
matches, record the indicator with the match count and at most two 200-char
newline-free examples. -/
def detectionEntry (t ind : List Char) : Option IndicatorEntry :=
  if (scanPositions (occursAt ind t) ind.length t.length) ≠ [] then
    if ctxSpans ind t ≠ [] then
      some ⟨ind, (ctxSpans ind t).length, ((ctxSpans ind t).take 2).map (mkExample t)⟩
    else none
  else none

/-- Indicator loop of `analyze_afd_text` over a configured indicator list. -/
def detectIndicators (indicators : List (List Char)) (t : List Char) :
    List IndicatorEntry :=
  indicators.filterMap (detectionEntry t)

/-- Detection-indicator keyword list hard-coded in `analyze_afd_text`. -/
def afdIndicators : List (List Char) :=
  ["AI-generated", "ChatGPT", "GPT", "language model", "LLM",
   "sounds like AI", "looks like AI", "reads like AI",
   "AI slop", "AI writing", "AI-written", "machine-generated",
   "bot-written", "automated", "hallucinated", "hallucination",
   "word salad", "generic", "non-human", "robotic"].map String.toList

/-- Detection-tool keyword list hard-coded in `analyze_afd_text`. -/
def afdTools : List (List Char) :=
  ["GPTZero", "AI detector", "detection tool", "AI checker"].map String.toList

/-- Analysis record of `analyze_afd_text`.  The source dict also carries
`outcomes`, `policies_cited`, `voters` and `arguments`; no claim concerns
them and `policies_cited` passes through Python's `list(set(...))`, whose
order is unspecified, so those fields are not modelled. -/
structure AfdAnalysis where
  article : List Char
  textLength : Nat
  detectionIndicators : List IndicatorEntry
  toolsMentioned : List (List Char)
deriving DecidableEq

/-- Embedding of `analyze_afd_text(text, article_name)`: on falsy text
(`None` or the empty string) the source returns `None`; otherwise it builds
the analysis record from the indicator and tool scans. -/
def analyzeAfdText (text : Option (List Char)) (article : List Char) :
    Option AfdAnalysis :=
  match text with
  | none => none
  | some t =>
    if t = [] then none
    else some ⟨article, t.length, detectIndicators afdIndicators t,
      afdTools.filter (fun tool =>
        !(scanPositions (occursAt tool t) tool.length t.length).isEmpty)⟩

/-- Length of the run of equals signs starting at position `i` of `t`. -/
def eqRunAt (t : List Char) (i : Nat) : Nat :=
  ((t.drop i).takeWhile (fun c => c = '=')).length

/-- Single-position match of the section-split regex
`\n=+\s*([^=]+)\s*=+` (with `minRun = 1`, wikipedia_ai_discussions_analyzer)
or `\n==+\s*([^=]+)\s*==+` (with `minRun = 2`,
wikipedia_specific_governance_analyzer).  A match needs a newline at `i`, a
maximal opening equals run of length `≥ minRun` (the greedy `=+` cannot give
signs back, since `\s*` and `[^=]+` refuse them), a non-empty equals-free
segment, and a closing equals run of length `≥ minRun`, consumed entirely by
the greedy closing `=+`.  The captured group is the segment without its
leading whitespace; when the segment is all whitespace the greedy `\s*`
backtracks one character and the group is the segment's last character.
Returns the match end and the captured group. -/
def matchSplitAt (minRun : Nat) (t : List Char) (i : Nat) :
    Option (Nat × List Char) :=
  if i < t.length ∧ t.getD i ' ' = '\n' then
    let r := eqRunAt t (i + 1)
    if r < minRun then none
    else
      let seg := (t.drop (i + 1 + r)).takeWhile (fun c => c ≠ '=')
      if seg = [] then none
      else
        let c := eqRunAt t (i + 1 + r + seg.length)
        if c < minRun then none
        else
          let g := seg.dropWhile isPySpace
          some (i + 1 + r + seg.length + c,
            if g = [] then [seg.getLastD ' '] else g)
  else none

/-- Leftmost match of the section-split regex at or after position `i`. -/
def findSplit (minRun : Nat) (t : List Char) : Nat → Nat → Option (Nat × Nat × List Char)
  | 0, _ => none
  | fuel + 1, i =>
    match matchSplitAt minRun t i with
    | some (e, g) => some (i, e, g)
    | none => if i < t.length then findSplit minRun t fuel (i + 1) else none

/-- Fuelled loop of `re.split` with one capture group: emit the segment before
each match, then the captured group, and resume at the match end. -/
def pySplitCapAux (minRun : Nat) (t : List Char) : Nat → Nat → List (List Char)
  | 0, s => [t.drop s]
  | fuel + 1, s =>
    match findSplit minRun t (t.length + 1) s with
    | none => [t.drop s]
    | some (ms, me, g) => slice t s ms :: g :: pySplitCapAux minRun t fuel (max me (s + 1))

/-- Model of `re.split(r'\n=(=)+\s*([^=]+)\s*=(=)+', text)`-style section
splitting: the resulting list alternates text segments (even indices) with
captured section titles (odd indices). -/
def pySplitCap (minRun : Nat) (t : List Char) : List (List Char) :=
  pySplitCapAux minRun t (t.length + 1) 0

/-- One entry of `ai_mentions` in `extract_ai_references`: keyword, owning
section title, context (the raw `section_content[start:end].strip()` slice —
note no newline replacement), and the match offset within the section. -/
structure AiMention where
  keyword : List Char
  sectionTitle : List Char
  context : List Char
  position : Nat
deriving DecidableEq

/-- Context and offset bookkeeping for one governance match: the context is
the stripped slice from 100 characters before to 100 after the occurrence,
clipped to the section bounds. -/
def mentionOf (kw title content : List Char) (j : Nat) : AiMention :=
  ⟨kw, title,
    pyStrip (slice content (j - 100) (min content.length (j + kw.length + 100))), j⟩

/-- Keyword scan of one section in `extract_ai_references`: for every keyword,
`re.finditer(r'\b'+re.escape(keyword)+r'\b', section_content, IGNORECASE)`,
one `AiMention` per match. -/
def scanSectionMentions (keywords : List (List Char)) (title content : List Char) :
    List AiMention :=
  (keywords.map (fun kw =>
    (scanPositions (occursAtB kw content) kw.length content.length).map
      (mentionOf kw title content))).flatten

/-- One entry of `ai_sections`: recorded when any keyword occurs (plain
case-insensitive substring, no word boundaries) in the section content. -/
structure AiSectionRec where
  sectionTitle : List Char
  content : List Char
  keywordsFound : List (List Char)
deriving DecidableEq

/-- Loop body of `extract_ai_references` over the alternating
content/heading parts produced by the section split, threading the current
section title (initially "Introduction"). -/
def extractLoop (kws : List (List Char)) : List (List Char) → List Char →
    List AiMention × List AiSectionRec
  | [], _ => ([], [])
  | content :: rest, title =>
    let ms := scanSectionMentions kws title content
    let secs :=
      if kws.any (fun k => containsSub k content) then
        [(⟨title, content.take 1000, kws.filter (fun k => containsSub k content)⟩ : AiSectionRec)]
      else []
    match rest with
    | [] => (ms, secs)
    | header :: rest2 =>
      let r := extractLoop kws rest2 (pyStrip header)
      (ms ++ r.1, secs ++ r.2)

/-- Result record of `extract_ai_references`.  The source's
`unique_ai_terms` field goes through Python's `list(set(...))`, whose order
is unspecified, and no claim concerns it, so it is not modelled. -/
structure GovExtract where
  aiFound : Bool
  aiSections : List AiSectionRec
  aiMentions : List AiMention
  totalAiReferences : Nat
deriving DecidableEq

/-- Embedding of `extract_ai_references(page_content, page_title)` for a
given configured keyword list (`self.ai_related_keywords` in the source):
empty wikitext short-circuits to the empty result; otherwise the wikitext is
split into sections and scanned section by section. -/
def extractAiReferences (kws : List (List Char)) (wikitext : List Char) : GovExtract :=
  if wikitext = [] then ⟨false, [], [], 0⟩
  else
    let r := extractLoop kws (pySplitCap 2 wikitext) introTitle
    ⟨!r.1.isEmpty, r.2, r.1, r.1.length⟩

/-- AI-related keyword list hard-coded in the governance analyzer. -/
def govKeywords : List (List Char) :=
  ["artificial intelligence", "AI", "machine learning", "ML",
   "bot", "automated", "automation", "algorithm", "algorithmic",
   "neural network", "deep learning", "chatbot", "language model",
   "GPT", "ChatGPT", "generative", "AI-generated", "AI-assisted",
   "computer-generated", "synthetic", "auto-generated"].map String.toList

theorem scanSectionMentions_cons (k : List Char) (ks : List (List Char))
    (title c : List Char) :
    scanSectionMentions (k :: ks) title c
      = ((scanPositions (occursAtB k c) k.length c.length).map (mentionOf k title c))
        ++ scanSectionMentions ks title c := by
  simp [scanSectionMentions]

theorem mention_keyword_mem (kws : List (List Char)) (title c : List Char) :
    ∀ m ∈ scanSectionMentions kws title c, m.keyword ∈ kws := by
  induction kws with
  | nil => intro m hm; simp [scanSectionMentions] at hm
  | cons k ks ih =>
    intro m hm
    rw [scanSectionMentions_cons] at hm
    rcases List.mem_append.1 hm with h | h
    · obtain ⟨j, _, hj⟩ := List.mem_map.1 h
      subst hj
      simp [mentionOf]
    · exact List.mem_cons_of_mem _ (ih m h)

theorem mention_shape (kws : List (List Char)) (title c : List Char) :
    ∀ m ∈ scanSectionMentions kws title c,
      ∃ kw j, kw ∈ kws ∧ j ∈ scanPositions (occursAtB kw c) kw.length c.length ∧
        m = mentionOf kw title c j := by
  induction kws with
  | nil => intro m hm; simp [scanSectionMentions] at hm
  | cons k ks ih =>
    intro m hm
    rw [scanSectionMentions_cons] at hm
    rcases List.mem_append.1 hm with h | h
    · obtain ⟨j, hj, hjm⟩ := List.mem_map.1 h
      exact ⟨k, j, by simp, hj, hjm.symm⟩
    · obtain ⟨kw, j, h1, h2, h3⟩ := ih m h
      exact ⟨kw, j, List.mem_cons_of_mem _ h1, h2, h3⟩

theorem filter_keyword_nil (kws : List (List Char)) (title c kw : List Char)
    (hkw : kw ∉ kws) :
    (scanSectionMentions kws title c).filter (fun m => decide (m.keyword = kw)) = [] := by
  rw [List.filter_eq_nil_iff]
  intro m hm
  have := mention_keyword_mem kws title c m hm
  simp only [decide_eq_true_eq]
  intro h
  exact hkw (h ▸ this)

/-- Claim C2 (amended, governance half): for every keyword list without
duplicates, the mention list reported by the governance analyzer's section
scan contains, for each keyword, exactly as many entries as the independent
non-overlapping occurrence scan of that keyword alone finds, and its total
length is the sum of those per-keyword counts. -/
theorem c2_gov_counts (kws : List (List Char)) (title content : List Char)
    (hnd : kws.Nodup) :
    (scanSectionMentions kws title content).length
      = (kws.map (fun k =>
          specIndependentCount (occursAtB k content) k.length content.length)).sum
    ∧ ∀ kw ∈ kws,
      ((scanSectionMentions kws title content).filter
          (fun m => decide (m.keyword = kw))).length
        = specIndependentCount (occursAtB kw content) kw.length content.length := by
  constructor
  · induction kws with
    | nil => simp [scanSectionMentions]
    | cons k ks ih =>
      rw [scanSectionMentions_cons, List.length_append, List.length_map,
        List.map_cons, List.sum_cons, specIndependentCount_eq,
        ih (List.Nodup.of_cons hnd)]
  · intro kw hkw
    induction kws with
    | nil => cases hkw
    | cons k ks ih =>
      rw [scanSectionMentions_cons, List.filter_append, List.length_append]
      by_cases hk : kw = k
      · subst hk
        have h1 : ((scanPositions (occursAtB kw content) kw.length content.length).map
            (mentionOf kw title content)).filter (fun m => decide (m.keyword = kw))
            = (scanPositions (occursAtB kw content) kw.length content.length).map
              (mentionOf kw title content) := by
          rw [List.filter_eq_self]
          intro m hm
          obtain ⟨j, _, hj⟩ := List.mem_map.1 hm
          subst hj
          simp [mentionOf]
        rw [h1, List.length_map, filter_keyword_nil ks title content kw
          (by exact (List.nodup_cons.1 hnd).1), List.length_nil,
          specIndependentCount_eq, Nat.add_zero]
      · have h1 : ((scanPositions (occursAtB k content) k.length content.length).map
            (mentionOf k title content)).filter (fun m => decide (m.keyword = kw)) = [] := by
          rw [List.filter_eq_nil_iff]
          intro m hm
          obtain ⟨j, _, hj⟩ := List.mem_map.1 hm
          subst hj
          simp only [mentionOf, decide_eq_true_eq]
          exact fun h => hk h.symm
        rw [h1, List.length_nil, Nat.zero_add]
        exact ih (List.Nodup.of_cons hnd) ((List.mem_cons.1 hkw).resolve_left hk)

/-- Claim C2, witness: concrete instance of the per-keyword count equality on
the text "GPT and AI" with keywords GPT and AI. -/
theorem c2_witness_concrete :
    ((scanSectionMentions ["GPT".toList, "AI".toList] introTitle
        "GPT and AI".toList).filter
      (fun m => decide (m.keyword = "GPT".toList))).length
      = specIndependentCount (occursAtB "GPT".toList "GPT and AI".toList)
          ("GPT".toList).length ("GPT and AI".toList).length :=
  (c2_gov_counts ["GPT".toList, "AI".toList] introTitle "GPT and AI".toList
    (by decide)).2 "GPT".toList (by decide)

/-- Claim C2, counterexample to the claim as stated: in the AfD analyzer the
per-indicator count is the number of matches of the context pattern
`.{0,100}indicator.{0,100}`, which merges occurrences lying within one
context window.  On the text "GPT GPT" the reported count for indicator
"GPT" is 1, while the independent non-overlapping scan of "GPT" alone
finds 2 occurrences. -/
theorem c2_counterexample_merged_window :
    detectionEntry "GPT GPT".toList "GPT".toList
      = some ⟨"GPT".toList, 1, ["GPT GPT".toList]⟩
    ∧ specIndependentCount (occursAt "GPT".toList "GPT GPT".toList)
        ("GPT".toList).length ("GPT GPT".toList).length = 2 := by
  constructor
  · decide
  · decide

theorem mkExample_length_le (t : List Char) (se : Nat × Nat) :
    (mkExample t se).length ≤ 200 :=
  List.length_take_le 200 _

theorem pyStrip_length_le (s : List Char) : (pyStrip s).length ≤ s.length := by
  unfold pyStrip
  calc ((s.dropWhile isPySpace).reverse.dropWhile isPySpace).reverse.length
      = ((s.dropWhile isPySpace).reverse.dropWhile isPySpace).length := List.length_reverse _
    _ ≤ (s.dropWhile isPySpace).reverse.length := (List.dropWhile_sublist _).length_le
    _ = (s.dropWhile isPySpace).length := List.length_reverse _
    _ ≤ s.length := (List.dropWhile_sublist _).length_le

theorem slice_length_le (t : List Char) (s e : Nat) :
    (slice t s e).length ≤ e - s :=
  List.length_take_le _ _

theorem mkExample_no_newline (t : List Char) (se : Nat × Nat) :
    '\n' ∉ mkExample t se := by
  intro h
  have h1 : '\n' ∈ (slice t se.1 se.2).map nlToSpace := List.mem_of_mem_take h
  obtain ⟨c, _, hc⟩ := List.mem_map.1 h1
  by_cases hcn : c = '\n'
  · subst hcn; simp [nlToSpace] at hc
  · simp only [nlToSpace, if_neg hcn] at hc
    exact hcn hc

/-- Claim C6 (amended): invariants of the two pattern matchers.  AfD analyzer
(`analyze_afd_text`): every stored example has length at most 200 and
contains no newline, and every context-pattern match anchors on an occurrence
at most 100 characters after the match start, ending at most 100 characters
after the occurrence, clipped to the text length.  Governance analyzer
(`extract_ai_references`): every mention's recorded offset lies within the
owning section's bounds, and its context is the stripped slice of the window
from 100 characters before to 100 after the occurrence, clipped to the
section bounds — with no newline replacement. -/
theorem c6_context_invariants :
    (∀ t ind e, detectionEntry t ind = some e →
      ∀ ex ∈ e.examples, ex.length ≤ 200 ∧ '\n' ∉ ex) ∧
    (∀ p t : List Char, ∀ se ∈ ctxSpans p t,
      ∃ j, occursAt p t j = true ∧ se.1 ≤ j ∧ j ≤ se.1 + 100 ∧
        se.2 = min (j + p.length + 100) t.length) ∧
    (∀ kws : List (List Char), ∀ title content : List Char,
      ∀ m ∈ scanSectionMentions kws title content,
      m.position + m.keyword.length ≤ content.length ∧
      m.context = pyStrip (slice content (m.position - 100)
        (min content.length (m.position + m.keyword.length + 100))) ∧
      m.context.length ≤ 200 + m.keyword.length) := by
  refine ⟨?_, ?_, ?_⟩
  · intro t ind e he ex hex
    unfold detectionEntry at he
    split at he
    · split at he
      · rcases Option.some.inj he with rfl
        simp only at hex
        obtain ⟨se, _, hse⟩ := List.mem_map.1 hex
        subst hse
        exact ⟨mkExample_length_le t se, mkExample_no_newline t se⟩
      · cases he
    · cases he
  · intro p t se hse
    exact ctxSpansAux_window p t (t.length + 1) 0 se hse
  · intro kws title content m hm
    obtain ⟨kw, j, _, hj, hmj⟩ := mention_shape kws title content m hm
    subst hmj
    have hb := (scanPosAux_mem (occursAtB kw content) kw.length content.length
      (content.length + 1) 0 j hj).2
    refine ⟨hb, rfl, ?_⟩
    show (pyStrip (slice content (j - 100)
      (min content.length (j + kw.length + 100)))).length ≤ 200 + kw.length
    calc (pyStrip (slice content (j - 100)
          (min content.length (j + kw.length + 100)))).length
        ≤ (slice content (j - 100)
            (min content.length (j + kw.length + 100))).length := pyStrip_length_le _
      _ ≤ min content.length (j + kw.length + 100) - (j - 100) := slice_length_le _ _ _
      _ ≤ 200 + kw.length := by
          have := Nat.min_le_right content.length (j + kw.length + 100)
          omega

/-- Claim C6, witness: the single stored example of the AfD scan of
"GPT GPT" is at most 200 characters long and newline-free. -/
theorem c6_witness_example :
    ("GPT GPT".toList).length ≤ 200 ∧ '\n' ∉ "GPT GPT".toList :=
  c6_context_invariants.1 "GPT GPT".toList "GPT".toList
    ⟨"GPT".toList, 1, ["GPT GPT".toList]⟩ (by decide) "GPT GPT".toList (by decide)

/-- Claim C6, counterexample to the claim as stated: the governance analyzer
does not replace newlines in contexts.  Scanning "a\nGPT" for keyword "GPT"
yields one mention whose context is the raw slice "a\nGPT", which contains a
newline character. -/
theorem c6_counterexample_newline_in_context :
    scanSectionMentions ["GPT".toList] introTitle "a\nGPT".toList
      = [⟨"GPT".toList, introTitle, "a\nGPT".toList, 2⟩]
    ∧ '\n' ∈ "a\nGPT".toList := by
  constructor
  · decide
  · decide

/-- Run of `k` ASCII digits starting at position `i` of `t` (model of
`\d{k}`). -/
def digitsAt (t : List Char) (i k : Nat) : Bool :=
  decide (i + k ≤ t.length) && ((t.drop i).take k).all Char.isDigit

/-- Literal character `c` at position `i` of `t`. -/
def charAtIs (t : List Char) (i : Nat) (c : Char) : Bool :=
  decide (i < t.length) && decide (t.getD i ' ' = c)

/-- Literal string `p` at position `i` of `t` (case-sensitive). -/
def litAt (t p : List Char) (i : Nat) : Bool :=
  decide (i + p.length ≤ t.length) && decide ((t.drop i).take p.length = p)

/-- Second alternative `\d{4}-\d{2}-\d{2}` of the signature pattern's
captured group: returns the end position on a match at `j`. -/
def sigAlt2 (t : List Char) (j : Nat) : Option Nat :=
  if digitsAt t j 4 && charAtIs t (j + 4) '-' && digitsAt t (j + 5) 2 &&
      charAtIs t (j + 7) '-' && digitsAt t (j + 8) 2 then some (j + 10) else none

/-- Lazy inner `.*?\d{4}` of the signature pattern's first alternative: the
year starts at the smallest position at or after `j2` reachable without
crossing a newline (no DOTALL flag on this pattern). -/
def findYear (t : List Char) : Nat → Nat → Option Nat
  | 0, _ => none
  | fuel + 1, j2 =>
    if digitsAt t j2 4 then some (j2 + 4)
    else if j2 < t.length ∧ t.getD j2 ' ' ≠ '\n' then findYear t fuel (j2 + 1)
    else none

/-- First alternative `\d{2}:\d{2}.*?\d{4}` of the signature pattern's
captured group. -/
def sigAlt1 (t : List Char) (j : Nat) : Option Nat :=
  if digitsAt t j 2 && charAtIs t (j + 2) ':' && digitsAt t (j + 3) 2 then
    findYear t (t.length + 1) (j + 5)
  else none

/-- The signature pattern's captured group
`(\d{2}:\d{2}.*?\d{4}|\d{4}-\d{2}-\d{2})` at position `j`: the first
alternative is preferred. -/
def sigAltAt (t : List Char) (j : Nat) : Option Nat :=
  match sigAlt1 t j with
  | some e => some e
  | none => sigAlt2 t j

/-- Lazy `.*?` before the captured group: the group starts at the smallest
position at or after `j` reachable without crossing a newline at which one
alternative matches.  Returns group start and match end. -/
def sigGroupFrom (t : List Char) : Nat → Nat → Option (Nat × Nat)
  | 0, _ => none
  | fuel + 1, j =>
    match sigAltAt t j with
    | some e => some (j, e)
    | none =>
      if j < t.length ∧ t.getD j ' ' ≠ '\n' then sigGroupFrom t fuel (j + 1)
      else none

/-- Match of the discussion signature pattern
`\[\[User[^]]*\]\].*?(\d{2}:\d{2}.*?\d{4}|\d{4}-\d{2}-\d{2})` starting at
position `i`: the literal `[[User`, a bracket-free run, the literal `]]`,
then the lazy search for the captured group.  Returns the group's start and
the match end. -/
def sigMatchAt (t : List Char) (i : Nat) : Option (Nat × Nat) :=
  if litAt t "[[User".toList i then
    let k := ((t.drop (i + 6)).takeWhile (fun c => c ≠ ']')).length
    if charAtIs t (i + 6 + k) ']' && charAtIs t (i + 6 + k + 1) ']' then
      sigGroupFrom t (t.length + 1) (i + 6 + k + 2)
    else none
  else none

/-- Leftmost signature match at or after position `i`. -/
def sigFind (t : List Char) : Nat → Nat → Option (Nat × Nat × Nat)
  | 0, _ => none
  | fuel + 1, i =>
    match sigMatchAt t i with
    | some (gs, e) => some (i, gs, e)
    | none => if i < t.length then sigFind t fuel (i + 1) else none

/-- Fuelled loop of `re.split(signature_pattern, section_content)`: segments
before each match are interleaved with the captured timestamp groups. -/
def pySplitSigAux (t : List Char) : Nat → Nat → List (List Char)
  | 0, s => [t.drop s]
  | fuel + 1, s =>
    match sigFind t (t.length + 1) s with
    | none => [t.drop s]
    | some (ms, gs, e) => slice t s ms :: slice t gs e :: pySplitSigAux t fuel (max e (s + 1))

/-- Model of `re.split` with the signature pattern of
`extract_discussion_threads`. -/
def pySplitSig (t : List Char) : List (List Char) :=
  pySplitSigAux t (t.length + 1) 0

/-- One discussion-thread record of `extract_discussion_threads`. -/
structure Thread where
  sectionTitle : List Char
  commentPreview : List Char
  aiKeywords : List (List Char)
  estimatedLength : Nat
deriving DecidableEq

/-- The `comment_text[:300] + '...'` preview truncation. -/
def previewOf (ct : List Char) : List Char :=
  if 300 < ct.length then ct.take 300 ++ "...".toList else ct

/-- Embedding of `extract_discussion_threads(section_content, section_title)`
for a configured keyword list: split on signatures, then visit indices
0, 3, 6, ... strictly below `len(comments) - 2`, keeping stripped comments of
more than 50 characters that contain at least one keyword. -/
def extractDiscussionThreads (kws : List (List Char)) (content title : List Char) :
    List Thread :=
  let comments := pySplitSig content
  ((List.range comments.length).filter
      (fun i => i % 3 = 0 ∧ i + 2 < comments.length)).filterMap (fun i =>
    let ct := pyStrip (comments.getD i [])
    if 50 < ct.length then
      let found := kws.filter (fun k => containsSub k ct)
      if found ≠ [] then some ⟨title, previewOf ct, found, ct.length⟩ else none
    else none)

/-- Loop body of `extract_ai_discussions` over the alternating
content/heading parts of the section split (marker run length ≥ 1 here),
threading the current section title; a section is searched for threads only
when some keyword occurs in it. -/
def discLoop (kws : List (List Char)) : List (List Char) → List Char → List Thread
  | [], _ => []
  | c :: rest, title =>
    let ts := if kws.any (fun k => containsSub k c) then
        extractDiscussionThreads kws c title
      else []
    match rest with
    | [] => ts
    | h :: rest2 => ts ++ discLoop kws rest2 (pyStrip h)

/-- Embedding of `extract_ai_discussions(content, page_title)` for a
configured keyword list (`self.ai_discussion_keywords` in the source): falsy
content (None or empty) short-circuits to the empty list. -/
def extractAiDiscussions (kws : List (List Char)) (content : Option (List Char)) :
    List Thread :=
  match content with
  | none => []
  | some c =>
    if c = [] then [] else discLoop kws (pySplitCap 1 c) introTitle

/-- AI-discussion keyword list hard-coded in the discussions analyzer. -/
def aiDiscussionKeywords : List (List Char) :=
  ["AI policy", "AI guidelines", "AI-generated content", "ChatGPT",
   "artificial intelligence policy", "machine learning policy",
   "generative AI", "language model", "AI bot", "AI tool",
   "AI detection", "AI verification", "synthetic content",
   "automated content generation", "AI assistance", "AI ethics"].map String.toList

theorem discLoop_empty_kws (parts : List (List Char)) (title : List Char) :
    discLoop [] parts title = [] := by
  induction parts, title using discLoop.induct [] with
  | case1 => rfl
  | case2 c title => simp [discLoop]
  | case3 c title h rest2 ih => simp [discLoop, ih]

/-- Claim C8 (amended): on empty or null text the discussions analyzer's
`extract_ai_discussions` returns an empty sequence, while the AfD analyzer's
`analyze_afd_text` returns a null result (`None`), not a sequence; with an
empty pattern set both scanners report no matches. -/
theorem c8_empty_text_and_empty_patterns :
    (∀ kws : List (List Char),
      extractAiDiscussions kws none = [] ∧ extractAiDiscussions kws (some []) = []) ∧
    (∀ article : List Char,
      analyzeAfdText none article = none ∧ analyzeAfdText (some []) article = none) ∧
    (∀ t : List Char, detectIndicators [] t = []) ∧
    (∀ content : Option (List Char), extractAiDiscussions [] content = []) := by
  refine ⟨fun kws => ⟨rfl, rfl⟩, fun article => ⟨rfl, rfl⟩, fun t => rfl, ?_⟩
  intro content
  match content with
  | none => rfl
  | some c =>
    simp only [extractAiDiscussions]
    by_cases hc : c = []
    · rw [if_pos hc]
    · rw [if_neg hc]
      exact discLoop_empty_kws _ _

/-- Claim C8, counterexample to the claim as stated: `analyze_afd_text`
returns `None` — a null/absent result, not an empty sequence of matches —
when the text is empty or null. -/
theorem c8_counterexample_null_result :
    analyzeAfdText (some []) "X".toList = none
    ∧ analyzeAfdText none "X".toList = none := ⟨rfl, rfl⟩

/-- Stable descending insertion: the new entry goes after every already
placed entry whose count is at least as large.  This is the ordering produced
by Python's stable `sorted(items, key=count, reverse=True)`, which both
`print_results` (`Counter.most_common`) and `categorize_detection_patterns`
(`sorted(..., key=lambda x: x[1], reverse=True)`) rely on. -/
def insertDesc {α : Type} : List (α × Nat) → (α × Nat) → List (α × Nat)
  | [], x => [x]
  | y :: ys, x => if x.2 ≤ y.2 then y :: insertDesc ys x else x :: y :: ys

/-- Stable sort of a frequency table (insertion-ordered association list) by
count, descending; ties keep the insertion (first-seen) order. -/
def pySortedDesc {α : Type} (l : List (α × Nat)) : List (α × Nat) :=
  l.foldl insertDesc []

/-- Top-N extraction: `Counter.most_common(n)` and
`sorted(...)[:n]` — the first `n` entries of the stable descending sort. -/
def mostCommon {α : Type} (l : List (α × Nat)) (n : Nat) : List (α × Nat) :=
  (pySortedDesc l).take n

/-- Descending order on counted entries. -/
def countGE {α : Type} (p q : α × Nat) : Prop := q.2 ≤ p.2

theorem insertDesc_perm {α : Type} (ys : List (α × Nat)) (x : α × Nat) :
    List.Perm (insertDesc ys x) (x :: ys) := by
  induction ys with
  | nil => exact List.Perm.refl _
  | cons y ys ih =>
    simp only [insertDesc]
    by_cases h : x.2 ≤ y.2
    · rw [if_pos h]
      exact ((ih.cons y).trans (List.Perm.swap x y ys)).symm.symm
    · rw [if_neg h]

theorem insertDesc_mem {α : Type} (ys : List (α × Nat)) (x z : α × Nat)
    (h : z ∈ insertDesc ys x) : z = x ∨ z ∈ ys := by
  have := (insertDesc_perm ys x).mem_iff.1 h
  rcases List.mem_cons.1 this with h1 | h1
  · exact Or.inl h1
  · exact Or.inr h1

theorem insertDesc_sorted {α : Type} (ys : List (α × Nat)) (x : α × Nat)
    (hs : List.Sorted (countGE (α := α)) ys) :
    List.Sorted (countGE (α := α)) (insertDesc ys x) := by
  induction ys with
  | nil => simp [insertDesc, List.Sorted]
  | cons y ys ih =>
    rw [List.sorted_cons] at hs
    simp only [insertDesc]
    by_cases h : x.2 ≤ y.2
    · rw [if_pos h, List.sorted_cons]
      refine ⟨?_, ih hs.2⟩
      intro z hz
      rcases insertDesc_mem ys x z hz with h1 | h1
      · rw [h1]; exact h
      · exact hs.1 z h1
    · rw [if_neg h, List.sorted_cons]
      refine ⟨?_, List.sorted_cons.2 hs⟩
      intro z hz
      rcases List.mem_cons.1 hz with h1 | h1
      · rw [h1]; exact Nat.le_of_lt (Nat.lt_of_not_le h)
      · exact Nat.le_trans (hs.1 z h1) (Nat.le_of_lt (Nat.lt_of_not_le h))

theorem foldl_insertDesc_perm {α : Type} (l acc : List (α × Nat)) :
    List.Perm (l.foldl insertDesc acc) (acc ++ l) := by
  induction l generalizing acc with
  | nil => simp
  | cons x xs ih =>
    rw [List.foldl_cons]
    refine (ih (insertDesc acc x)).trans ?_
    refine (List.Perm.append_right xs (insertDesc_perm acc x)).trans ?_
    exact (List.perm_middle).symm

theorem foldl_insertDesc_sorted {α : Type} (l acc : List (α × Nat))
    (hs : List.Sorted (countGE (α := α)) acc) :
    List.Sorted (countGE (α := α)) (l.foldl insertDesc acc) := by
  induction l generalizing acc with
  | nil => exact hs
  | cons x xs ih => exact ih _ (insertDesc_sorted acc x hs)

theorem insertDesc_filter {α : Type} (ys : List (α × Nat)) (x : α × Nat) (c : Nat)
    (hs : List.Sorted (countGE (α := α)) ys) :
    (insertDesc ys x).filter (fun p => decide (p.2 = c))
      = if x.2 = c then ys.filter (fun p => decide (p.2 = c)) ++ [x]
        else ys.filter (fun p => decide (p.2 = c)) := by
  induction ys with
  | nil =>
    simp only [insertDesc, List.filter_nil]
    by_cases hx : x.2 = c
    · rw [if_pos hx]; simp [hx]
    · rw [if_neg hx]; simp [hx]
  | cons y ys ih =>
    rw [List.sorted_cons] at hs
    simp only [insertDesc]
    by_cases h : x.2 ≤ y.2
    · rw [if_pos h]
      by_cases hy : y.2 = c
      · rw [List.filter_cons_of_pos (by simp [hy]),
          List.filter_cons_of_pos (by simp [hy]), ih hs.2]
        by_cases hx : x.2 = c
        · rw [if_pos hx, if_pos hx]; rfl
        · rw [if_neg hx, if_neg hx]
      · rw [List.filter_cons_of_neg (by simp [hy]),
          List.filter_cons_of_neg (by simp [hy]), ih hs.2]
    · rw [if_neg h]
      have hlt : y.2 < x.2 := Nat.lt_of_not_le h
      by_cases hx : x.2 = c
      · have hnil : (y :: ys).filter (fun p => decide (p.2 = c)) = [] := by
          rw [List.filter_eq_nil_iff]
          intro z hz
          simp only [decide_eq_true_eq]
          rcases List.mem_cons.1 hz with h1 | h1
          · rw [h1]; omega
          · have h2 : z.2 ≤ y.2 := hs.1 z h1
            omega
        rw [if_pos hx, List.filter_cons_of_pos (by simp [hx]), hnil]
        rfl
      · rw [if_neg hx, List.filter_cons_of_neg (by simp [hx])]

theorem foldl_insertDesc_filter {α : Type} (l acc : List (α × Nat)) (c : Nat)
    (hs : List.Sorted (countGE (α := α)) acc) :
    (l.foldl insertDesc acc).filter (fun p => decide (p.2 = c))
      = acc.filter (fun p => decide (p.2 = c)) ++ l.filter (fun p => decide (p.2 = c)) := by
  induction l generalizing acc with
  | nil => simp
  | cons x xs ih =>
    rw [List.foldl_cons, ih _ (insertDesc_sorted acc x hs),
      insertDesc_filter acc x c hs]
    by_cases hx : x.2 = c
    · rw [if_pos hx, List.filter_cons_of_pos (by simp [hx])]
      simp [List.append_assoc]
    · rw [if_neg hx, List.filter_cons_of_neg (by simp [hx])]

/-- Claim C7: top-N extraction (`Counter.most_common(n)` in `print_results`,
`sorted(..., key=count, reverse=True)[:n]` in
`categorize_detection_patterns`) returns the entries in descending count
order; the underlying sort is a permutation of the table; entries with equal
counts keep their first-seen (insertion) order (the filter-stability
equation); every returned entry's count is at least every dropped entry's
count; and on counts a:5, b:5, c:3 with a first, top 2 is [a, b]. -/
theorem c7_top_n_stable (α : Type) (l : List (α × Nat)) (n : Nat) :
    List.Perm (pySortedDesc l) l
    ∧ List.Sorted (countGE (α := α)) (pySortedDesc l)
    ∧ (∀ c : Nat, (pySortedDesc l).filter (fun p => decide (p.2 = c))
        = l.filter (fun p => decide (p.2 = c)))
    ∧ (∀ p ∈ mostCommon l n, ∀ q ∈ (pySortedDesc l).drop n, q.2 ≤ p.2)
    ∧ mostCommon [("a".toList, 5), ("b".toList, 5), ("c".toList, 3)] 2
        = [("a".toList, 5), ("b".toList, 5)] := by
  refine ⟨?_, ?_, ?_, ?_, by decide⟩
  · have h := foldl_insertDesc_perm l ([] : List (α × Nat))
    simpa using h
  · exact foldl_insertDesc_sorted l [] (by simp)
  · intro c
    have h := foldl_insertDesc_filter l [] c (by simp)
    simpa using h
  · intro p hp q hq
    have hs : List.Sorted (countGE (α := α)) (pySortedDesc l) :=
      foldl_insertDesc_sorted l [] (by simp)
    rw [← List.take_append_drop n (pySortedDesc l)] at hs
    have := (List.pairwise_append.1 hs).2.2
    exact this p hp q hq

/-- Claim C7, witness: in the concrete table a:5, b:5, c:3, every retained
entry's count dominates the dropped entry's count. -/
theorem c7_witness_concrete :
    ((("c".toList, 3) : List Char × Nat)).2 ≤ ((("a".toList, 5) : List Char × Nat)).2 :=
  (c7_top_n_stable (List Char)
      [("a".toList, 5), ("b".toList, 5), ("c".toList, 3)] 2).2.2.2.1
    ("a".toList, 5) (by decide) ("c".toList, 3) (by decide)

/-- Insertion-ordered counter increment, the model of
`Counter[key] += 1` / `defaultdict(int)` updates: an existing key keeps its
position, a new key is appended. -/
def bump {α : Type} [DecidableEq α] : List (α × Nat) → α → List (α × Nat)
  | [], k => [(k, 1)]
  | (a, c) :: rest, k =>
    if a = k then (a, c + 1) :: rest else (a, c) :: bump rest k

/-- Build a counter from a key sequence (model of `Counter(iterable)`). -/
def counterOf (keys : List (List Char)) : List (List Char × Nat) :=
  keys.foldl bump []

/-- Total of a counter's values (`sum(counter.values())`). -/
def sumCounts {α : Type} (t : List (α × Nat)) : Nat := (t.map (fun p => p.2)).sum

/-- Counter lookup with default 0 (`counter.get(key, 0)`). -/
def lookupCount (t : List (List Char × Nat)) (k : List Char) : Nat :=
  match t.find? (fun p => decide (p.1 = k)) with
  | some p => p.2
  | none => 0

/-- ASCII letter or digit, the case-insensitive `[A-Z0-9]` class. -/
def isAlnumCI (c : Char) : Bool := c.isAlpha || c.isDigit

/-- Length of the maximal `[A-Z0-9]*` run at position `i`. -/
def alnumRunLen (t : List Char) (i : Nat) : Nat :=
  ((t.drop i).takeWhile isAlnumCI).length

/-- Length consumed by `(?:[-_][A-Z0-9]+)*` (greedy, maximal) at position
`i`: repeatedly a dash or underscore followed by a non-empty alphanumeric
run. -/
def dashGroupsLen (t : List Char) : Nat → Nat → Nat
  | 0, _ => 0
  | fuel + 1, i =>
    if charAtIs t i '-' || charAtIs t i '_' then
      let r := alnumRunLen t (i + 1)
      if r = 0 then 0 else (1 + r) + dashGroupsLen t fuel (i + 1 + r)
    else 0

/-- Length of the prefix alternation `(?:WP|Wikipedia|MOS)` of the policy
pattern at position `i` (case-insensitive; the alternatives are mutually
exclusive on their second character, so no backtracking arises). -/
def polPrefixLen (t : List Char) (i : Nat) : Option Nat :=
  if occursAt ("WP".toList) t i then some 2
  else if occursAt ("Wikipedia".toList) t i then some 9
  else if occursAt ("MOS".toList) t i then some 3
  else none

/-- Length of a match of the policy-citation pattern
`(?:WP|Wikipedia|MOS):[A-Z][A-Z0-9]*(?:[-_][A-Z0-9]+)*` (IGNORECASE) at
position `i`, if any. -/
def polMatchLen (t : List Char) (i : Nat) : Option Nat :=
  match polPrefixLen t i with
  | none => none
  | some pl =>
    if charAtIs t (i + pl) ':' && decide (i + pl + 1 < t.length) &&
        (t.getD (i + pl + 1) ' ').isAlpha then
      let r0 := alnumRunLen t (i + pl + 2)
      some (pl + 2 + r0 + dashGroupsLen t (t.length + 1) (i + pl + 2 + r0))
    else none

/-- Fuelled scan of `re.findall(POLICY_PATTERN, comment, re.IGNORECASE)`:
leftmost non-overlapping matches, resuming after each match. -/
def polFindallAux (t : List Char) : Nat → Nat → List (Nat × Nat)
  | 0, _ => []
  | fuel + 1, i =>
    if i < t.length then
      match polMatchLen t i with
      | some len => (i, len) :: polFindallAux t fuel (i + max 1 len)
      | none => polFindallAux t fuel (i + 1)
    else []

/-- The policy citations found in one edit summary, as matched strings. -/
def polFindall (t : List Char) : List (List Char) :=
  (polFindallAux t (t.length + 1) 0).map (fun p => slice t p.1 (p.1 + p.2))

/-- Upper-case an ASCII character (model of `str.upper` normalisation). -/
def upperChar (c : Char) : Char :=
  if 'a' ≤ c ∧ c ≤ 'z' then Char.ofNat (c.toNat - 32) else c

/-- Upper-case a string (`policy.upper()`). -/
def upperStr (s : List Char) : List Char := s.map upperChar

/-- Case-insensitive character test at a position. -/
def charAtIsCI (t : List Char) (i : Nat) (c : Char) : Bool :=
  decide (i < t.length) && decide (lowerChar (t.getD i ' ') = c)

/-- Tail test of `WP:BOTS?(?:\b|[^A-Z])`: after `WP:BOT` (and an optional
`S`) the match needs the end of the string, a non-word character (`\b`), or
— consuming it — a non-letter (`[^A-Z]` under IGNORECASE); the union is
"end of string or a non-letter next". -/
def aiAfterOk (t : List Char) (m : Nat) : Bool :=
  decide (t.length ≤ m) || !(t.getD m ' ').isAlpha

/-- Search of the AI-policy pattern `WP:BOTS?(?:\b|[^A-Z])` (IGNORECASE). -/
def wpBotsHit (t : List Char) : Bool :=
  (List.range (t.length + 1)).any (fun j =>
    occursAt ("WP:BOT".toList) t j &&
      (charAtIsCI t (j + 6) 's' && aiAfterOk t (j + 7) || aiAfterOk t (j + 6)))

/-- Search of the AI-policy pattern `Wikipedia:AI[-_]generated`
(IGNORECASE). -/
def wikipediaAIgenHit (t : List Char) : Bool :=
  (List.range (t.length + 1)).any (fun j =>
    occursAt ("Wikipedia:AI".toList) t j &&
      (charAtIs t (j + 12) '-' || charAtIs t (j + 12) '_') &&
      occursAt ("generated".toList) t (j + 13))

/-- AI-relatedness of one matched policy string: some pattern of
`AI_POLICY_PATTERNS` matches it (the source's inner loop breaks at the first
hit, so only the disjunction is observable). -/
def isAiPolicy (pol : List Char) : Bool :=
  containsSub ("WP:NOTAI".toList) pol || containsSub ("WP:AI".toList) pol ||
  containsSub ("Wikipedia:AI".toList) pol || wikipediaAIgenHit pol ||
  containsSub ("WP:CHATGPT".toList) pol || containsSub ("WP:LLM".toList) pol ||
  wpBotsHit pol || containsSub ("MOS:AI".toList) pol

/-- Accumulated state of `search_edit_summaries_2025`, plus the number of
fetch calls made (for the pagination-ceiling claim). -/
structure SearchState where
  allPolicies : List (List Char × Nat)
  aiPolicies : List (List Char × Nat)
  totalEdits : Nat
  editsWithPolicies : Nat
  batchesProcessed : Nat
  fetchCalls : Nat
deriving DecidableEq

/-- Counting of one matched policy string: normalise to upper case, bump the
all-policies counter, and bump the AI counter when an AI pattern matches. -/
def countPolicy (s : SearchState) (pol : List Char) : SearchState :=
  let s1 := { s with allPolicies := bump s.allPolicies (upperStr pol) }
  if isAiPolicy pol then { s1 with aiPolicies := bump s1.aiPolicies (upperStr pol) }
  else s1

/-- Processing of one recent change: count the edit; an empty comment is
skipped; otherwise find all policy citations and count them. -/
def processComment (st : SearchState) (comment : List Char) : SearchState :=
  let st1 := { st with totalEdits := st.totalEdits + 1 }
  if comment = [] then st1
  else
    let pols := polFindall comment
    if pols = [] then st1
    else
      pols.foldl countPolicy
        { st1 with editsWithPolicies := st1.editsWithPolicies + 1 }

/-- One page of the `recentchanges` API: the comments of the returned
changes, and whether a continuation token is present.  The token value is
opaque and only threaded into the next request, so the model indexes fetch
outcomes by call number and keeps only the token's presence. -/
structure RCResponse where
  changes : List (List Char)
  contToken : Bool
deriving DecidableEq

/-- Loop of `search_edit_summaries_2025`: while `batch_num < max_batches`,
fetch a batch; a raised fetch error is caught, printed with the batch
number, and breaks the loop (returned as the second component); an empty
page breaks; a missing continuation token breaks; otherwise continue.  The
remaining-budget argument makes the `max_batches` ceiling structural. -/
def searchLoopAux (fetch : Nat → Except (List Char) RCResponse) :
    Nat → SearchState → SearchState × Option (Nat × List Char)
  | 0, st => (st, none)
  | budget + 1, st =>
    let st0 := { st with batchesProcessed := st.batchesProcessed + 1 }
    let st1 := { st0 with fetchCalls := st0.fetchCalls + 1 }
    match fetch st.fetchCalls with
    | .error e => (st1, some (st1.batchesProcessed, e))
    | .ok resp =>
      if resp.changes = [] then (st1, none)
      else
        let st2 := resp.changes.foldl processComment st1
        if resp.contToken then searchLoopAux fetch budget st2
        else (st2, none)

/-- Initial accumulator of `search_edit_summaries_2025`. -/
def initialSearchState : SearchState := ⟨[], [], 0, 0, 0, 0⟩

/-- Embedding of `search_edit_summaries_2025(limit_per_batch, max_batches)`
against a stream of fetch outcomes indexed by call number. -/
def searchEditSummaries (fetch : Nat → Except (List Char) RCResponse)
    (maxBatches : Nat) : SearchState × Option (Nat × List Char) :=
  searchLoopAux fetch maxBatches initialSearchState

/-- One page entry of the `allpages` API used by
`get_popular_wikiprojects`. -/
structure WPPage where
  title : List Char
  pageid : Nat
deriving DecidableEq

/-- One `allpages` response: the page list when the `query`/`allpages`
envelope is present, and whether a continuation token is present. -/
structure WPResponse where
  allpages : Option (List WPPage)
  contToken : Bool
deriving DecidableEq

/-- State of the WikiProject pagination loop. -/
structure WPState where
  wikiprojects : List WPPage
  batchCount : Nat
  fetchCalls : Nat
deriving DecidableEq

/-- Number of slashes in a title (`title.count('/')`): only slash-free main
WikiProject pages are kept. -/
def countSlash (t : List Char) : Nat := (t.filter (fun c => c = '/')).length

/-- Page processing of one `allpages` batch. -/
def wpProcess (st : WPState) (resp : WPResponse) : WPState :=
  match resp.allpages with
  | none => st
  | some pages =>
    { st with wikiprojects :=
        st.wikiprojects ++ pages.filter (fun p => decide (countSlash p.title = 0)) }

/-- The `while True:` pagination loop of `get_popular_wikiprojects`: there is
no batch ceiling; the loop exits only when a response carries no
continuation token, or when a fetch raises (the exception propagates to the
function-level handler).  `none` means the given fuel was exhausted while
the loop was still running. -/
def wpLoopAux (fetch : Nat → Except (List Char) WPResponse) :
    Nat → WPState → Option (Except (List Char) WPState)
  | 0, _ => none
  | fuel + 1, st =>
    let st0 := { st with batchCount := st.batchCount + 1 }
    let st1 := { st0 with fetchCalls := st0.fetchCalls + 1 }
    match fetch st.fetchCalls with
    | .error e => some (.error e)
    | .ok resp =>
      let st2 := wpProcess st1 resp
      if resp.contToken then wpLoopAux fetch fuel st2
      else some (.ok st2)

/-- The WikiProject pagination loop run from the initial state with the
given fuel. -/
def wpLoop (fetch : Nat → Except (List Char) WPResponse) (fuel : Nat) :
    Option (Except (List Char) WPState) :=
  wpLoopAux fetch fuel ⟨[], 0, 0⟩

theorem countPolicy_fetchCalls (s : SearchState) (pol : List Char) :
    (countPolicy s pol).fetchCalls = s.fetchCalls := by
  simp only [countPolicy]
  split <;> rfl

theorem foldl_countPolicy_fetchCalls (pols : List (List Char)) :
    ∀ s : SearchState, (pols.foldl countPolicy s).fetchCalls = s.fetchCalls := by
  induction pols with
  | nil => intro s; rfl
  | cons p ps ih =>
    intro s
    rw [List.foldl_cons, ih (countPolicy s p), countPolicy_fetchCalls]

theorem processComment_fetchCalls (st : SearchState) (c : List Char) :
    (processComment st c).fetchCalls = st.fetchCalls := by
  simp only [processComment]
  split
  · rfl
  · split
    · rfl
    · rw [foldl_countPolicy_fetchCalls]

theorem foldl_processComment_fetchCalls (cs : List (List Char)) :
    ∀ st : SearchState, (cs.foldl processComment st).fetchCalls = st.fetchCalls := by
  induction cs with
  | nil => intro st; rfl
  | cons c cs ih =>
    intro st
    rw [List.foldl_cons, ih (processComment st c), processComment_fetchCalls]

theorem countPolicy_batches (s : SearchState) (pol : List Char) :
    (countPolicy s pol).batchesProcessed = s.batchesProcessed := by
  simp only [countPolicy]
  split <;> rfl

theorem foldl_countPolicy_batches (pols : List (List Char)) :
    ∀ s : SearchState, (pols.foldl countPolicy s).batchesProcessed = s.batchesProcessed := by
  induction pols with
  | nil => intro s; rfl
  | cons p ps ih =>
    intro s
    rw [List.foldl_cons, ih (countPolicy s p), countPolicy_batches]

theorem processComment_batches (st : SearchState) (c : List Char) :
    (processComment st c).batchesProcessed = st.batchesProcessed := by
  simp only [processComment]
  split
  · rfl
  · split
    · rfl
    · rw [foldl_countPolicy_batches]

theorem foldl_processComment_batches (cs : List (List Char)) :
    ∀ st : SearchState, (cs.foldl processComment st).batchesProcessed = st.batchesProcessed := by
  induction cs with
  | nil => intro st; rfl
  | cons c cs ih =>
    intro st
    rw [List.foldl_cons, ih (processComment st c), processComment_batches]

theorem searchLoopAux_fetchCalls_le (fetch : Nat → Except (List Char) RCResponse) :
    ∀ budget st, (searchLoopAux fetch budget st).1.fetchCalls ≤ st.fetchCalls + budget := by
  intro budget
  induction budget with
  | zero => intro st; simp [searchLoopAux]
  | succ b ih =>
    intro st
    simp only [searchLoopAux]
    cases fetch st.fetchCalls with
    | error e =>
      show st.fetchCalls + 1 ≤ st.fetchCalls + (b + 1)
      omega
    | ok resp =>
      dsimp only
      by_cases hc : resp.changes = []
      · rw [if_pos hc]
        show st.fetchCalls + 1 ≤ st.fetchCalls + (b + 1)
        omega
      · rw [if_neg hc]
        by_cases ht : resp.contToken = true
        · rw [if_pos ht]
          refine Nat.le_trans (ih _) ?_
          rw [foldl_processComment_fetchCalls]
          show st.fetchCalls + 1 + b ≤ st.fetchCalls + (b + 1)
          omega
        · rw [if_neg ht]
          dsimp only
          rw [foldl_processComment_fetchCalls]
          show st.fetchCalls + 1 ≤ st.fetchCalls + (b + 1)
          omega

theorem searchLoopAux_ok_no_exception (fetch : Nat → Except (List Char) RCResponse)
    (hok : ∀ k, ∃ r, fetch k = Except.ok r) :
    ∀ budget st, (searchLoopAux fetch budget st).2 = none := by
  intro budget
  induction budget with
  | zero => intro st; rfl
  | succ b ih =>
    intro st
    simp only [searchLoopAux]
    obtain ⟨r, hr⟩ := hok st.fetchCalls
    rw [hr]
    dsimp only
    by_cases hc : r.changes = []
    · rw [if_pos hc]
    · rw [if_neg hc]
      by_cases ht : r.contToken = true
      · rw [if_pos ht]; exact ih _
      · rw [if_neg ht]

theorem searchLoopAux_always_token (r : RCResponse) (hc : r.changes ≠ [])
    (ht : r.contToken = true) :
    ∀ budget st, (searchLoopAux (fun _ => Except.ok r) budget st).1.fetchCalls
      = st.fetchCalls + budget := by
  intro budget
  induction budget with
  | zero => intro st; rfl
  | succ b ih =>
    intro st
    simp only [searchLoopAux, if_neg hc, if_pos ht]
    rw [ih, foldl_processComment_fetchCalls]
    show st.fetchCalls + 1 + b = st.fetchCalls + (b + 1)
    omega

theorem wpProcess_fetchCalls (st : WPState) (resp : WPResponse) :
    (wpProcess st resp).fetchCalls = st.fetchCalls := by
  simp only [wpProcess]
  split <;> rfl

theorem wpLoopAux_halts (fetch : Nat → Except (List Char) WPResponse) :
    ∀ fuel k st, k < fuel →
      (∀ r, fetch (st.fetchCalls + k) = Except.ok r → r.contToken = false) →
      wpLoopAux fetch fuel st ≠ none := by
  intro fuel
  induction fuel with
  | zero => intro k st hk _; omega
  | succ f ih =>
    intro k st hk hstop
    simp only [wpLoopAux]
    cases hf : fetch st.fetchCalls with
    | error e => simp
    | ok resp =>
      dsimp only
      by_cases ht : resp.contToken = true
      · rw [if_pos ht]
        cases k with
        | zero =>
          have := hstop resp (by simpa using hf)
          rw [this] at ht
          cases ht
        | succ k2 =>
          refine ih k2 _ (by omega) ?_
          simp only [wpProcess_fetchCalls]
          intro r2 hr2
          refine hstop r2 ?_
          rw [← hr2]
          congr 1
          dsimp only
          omega
      · rw [if_neg ht]
        simp

/-- Claim C3 (amended): the policy-citation paginator
(`search_edit_summaries_2025`) makes at most `max_batches` fetch calls for
every outcome stream; when no fetch raises, the run ends without a caught
exception (absence of a continuation token, an empty page, and the ceiling
are all normal terminations); a stream that always returns a continuation
token is cut off at exactly `max_batches` calls.  The WikiProject paginator
(`get_popular_wikiprojects`) has no ceiling: it halts when some response
carries no continuation token (or a fetch raises). -/
theorem c3_pagination_termination :
    (∀ fetch maxB, (searchEditSummaries fetch maxB).1.fetchCalls ≤ maxB)
    ∧ (∀ fetch maxB, (∀ k, ∃ r, fetch k = Except.ok r) →
        (searchEditSummaries fetch maxB).2 = none)
    ∧ (∀ (r : RCResponse) maxB, r.changes ≠ [] → r.contToken = true →
        (searchEditSummaries (fun _ => Except.ok r) maxB).1.fetchCalls = maxB)
    ∧ (∀ fetch fuel k, k < fuel →
        (∀ r, fetch k = Except.ok r → r.contToken = false) →
        wpLoop fetch fuel ≠ none) := by
  refine ⟨?_, ?_, ?_, ?_⟩
  · intro fetch maxB
    have h := searchLoopAux_fetchCalls_le fetch maxB initialSearchState
    simpa [searchEditSummaries, initialSearchState] using h
  · intro fetch maxB hok
    exact searchLoopAux_ok_no_exception fetch hok maxB initialSearchState
  · intro r maxB hc ht
    have h := searchLoopAux_always_token r hc ht maxB initialSearchState
    simpa [searchEditSummaries, initialSearchState] using h
  · intro fetch fuel k hk hstop
    exact wpLoopAux_halts fetch fuel k ⟨[], 0, 0⟩ hk (by simpa using hstop)

/-- Claim C3, witness: a WikiProject response stream whose first response
has no continuation token makes the loop halt within one call. -/
theorem c3_witness_token_absent :
    wpLoop (fun _ => Except.ok ⟨some [], false⟩) 1 ≠ none :=
  c3_pagination_termination.2.2.2 (fun _ => Except.ok ⟨some [], false⟩) 1 0
    (by decide) (fun r hr => by cases hr; rfl)

/-- Claim C3, counterexample to the claim as stated: against a stream whose
every response is an empty page carrying a continuation token, the
WikiProject pagination loop (`while True:` with no batch ceiling) is still
running after 21 fetch calls — more than the `max_batches = 20` of the
policy analyzer — and the empty pages do not terminate it either. -/
theorem c3_counterexample_no_ceiling :
    wpLoop (fun _ => Except.ok ⟨some [], true⟩) 21 = none := rfl

/-- Message of a Python `ZeroDivisionError`. -/
def zeroDivisionMsg : List Char := "ZeroDivisionError".toList

/-- Checked division modelling Python `/` on numbers: raises
`ZeroDivisionError` on a zero divisor.  Python floats are modelled by exact
rationals; the claims concern only whether a division raises. -/
def pyDivQ (a b : ℚ) : Except (List Char) ℚ :=
  if b = 0 then Except.error zeroDivisionMsg else Except.ok (a / b)

/-- One console line of `print_results`, keeping the computed values. -/
inductive OutLine where
  | totalEditsLine (n : Nat)
  | editsWithPoliciesLine (n : Nat) (pct : Option ℚ)
  | warnNoEdits
  | totalCitationsLine (pol ai : Nat)
  | aiRatioLine (pct : ℚ)
  | topPolicyLine (name : List Char) (count : Nat) (pct : ℚ) (aiMarker : Bool)
  | aiBreakdownLine (name : List Char) (count : Nat) (pctAll pctAi : ℚ)
  | noAiFoundLine
  | statsLine (uniquePol uniqueAi : Nat) (avg : ℚ) (batches : Nat)
deriving DecidableEq

/-- Embedding of `print_results(results)`.  When no edits were retrieved the
function warns and returns early.  Otherwise: the edits-with-policies
percentage (guarded by `total_edits > 0`), the AI ratio (guarded by
`total_policy_citations > 0`), the top-20 listing (percentages divide by
`total_policy_citations`), the AI breakdown (guarded by `ai_policies` being
non-empty), and finally the statistics block, whose average
`total_policy_citations / len(all_policies)` is NOT guarded. -/
def printResults (results : SearchState) : Except (List Char) (List OutLine) := do
  let totalPol := sumCounts results.allPolicies
  let totalAi := sumCounts results.aiPolicies
  if results.totalEdits = 0 then
    pure [OutLine.totalEditsLine results.totalEdits,
      OutLine.editsWithPoliciesLine results.editsWithPolicies none,
      OutLine.warnNoEdits]
  else do
    let pct1 ← pyDivQ (results.editsWithPolicies : ℚ) (results.totalEdits : ℚ)
    let ratioLines ←
      if 0 < totalPol then do
        let q ← pyDivQ (totalAi : ℚ) (totalPol : ℚ)
        pure [OutLine.aiRatioLine (q * 100)]
      else pure []
    let top ← (mostCommon results.allPolicies 20).mapM (fun pc => do
      let q ← pyDivQ (pc.2 : ℚ) (totalPol : ℚ)
      pure (OutLine.topPolicyLine pc.1 pc.2 (q * 100)
        (!(results.aiPolicies.find? (fun p => decide (p.1 = pc.1))).isNone)))
    let aiLines ←
      if results.aiPolicies = [] then pure [OutLine.noAiFoundLine]
      else (pySortedDesc results.aiPolicies).mapM (fun pc => do
        let qAll ← pyDivQ (pc.2 : ℚ) (totalPol : ℚ)
        let qAi ← pyDivQ (pc.2 : ℚ) (totalAi : ℚ)
        pure (OutLine.aiBreakdownLine pc.1 pc.2 (qAll * 100) (qAi * 100)))
    let avg ← pyDivQ (totalPol : ℚ) (results.allPolicies.length : ℚ)
    pure ([OutLine.totalEditsLine results.totalEdits,
        OutLine.editsWithPoliciesLine results.editsWithPolicies (some (pct1 * 100)),
        OutLine.totalCitationsLine totalPol totalAi] ++ ratioLines ++ top ++ aiLines ++
      [OutLine.statsLine results.allPolicies.length results.aiPolicies.length avg
        results.batchesProcessed])

/-- Python `round(x, 1)`: round half to even at one decimal. -/
def pyRound1 (q : ℚ) : ℚ :=
  let x := q * 10
  let f : ℤ := ⌊x⌋
  let r := x - (f : ℚ)
  ((if r < 1/2 then f else if 1/2 < r then f + 1
    else if f % 2 = 0 then f else f + 1 : ℤ) : ℚ) / 10

/-- One analyzed Eclipse project, with the fields `generate_statistics`
reads.  The source's `category` field is the API's list of categories (the
scalar fallback branch of the source is defensive). -/
structure EclipseProject where
  name : List Char
  projectId : List Char
  state : List Char
  category : List (List Char)
  repositoryPlatform : List Char
  githubOrganization : List Char
  githubIssues : Bool
  mailingLists : Bool
deriving DecidableEq

/-- Statistics record of `EclipseFoundationCollector.generate_statistics`.
The `analysis_date` metadata field (wall-clock time) is not modelled. -/
structure EclipseStats where
  totalProjects : Nat
  platformDistribution : List (List Char × Nat)
  githubAdoptionRate : ℚ
  githubIssuesAdoption : ℚ
  mailingListUsage : ℚ
  projectsWithGithubIssues : Nat
  projectsWithMailingLists : Nat
  projectStates : List (List Char × Nat)
  projectCategories : List (List Char × Nat)
  topGithubOrgs : List (List Char × Nat)
deriving DecidableEq

/-- Embedding of `generate_statistics`: with no projects the source returns
the empty dict (modelled as `none`); otherwise every percentage divides by
`total = len(self.projects) > 0`. -/
def generateStatistics (ps : List EclipseProject) :
    Except (List Char) (Option EclipseStats) :=
  if ps = [] then Except.ok none
  else do
    let total : ℚ := (ps.length : ℚ)
    let platformCounts := counterOf (ps.map (fun p => p.repositoryPlatform))
    let githubIssues := (ps.filter (fun p => p.githubIssues)).length
    let mailingLists := (ps.filter (fun p => p.mailingLists)).length
    let stateCounts := counterOf (ps.map (fun p => p.state))
    let categoryCounts := counterOf ((ps.map (fun p => p.category)).flatten)
    let orgCounts := counterOf
      ((ps.filter (fun p => !p.githubOrganization.isEmpty)).map
        (fun p => p.githubOrganization))
    let gRate ← pyDivQ ((lookupCount platformCounts ("GitHub".toList) : Nat) : ℚ) total
    let giRate ← pyDivQ (githubIssues : ℚ) total
    let mlRate ← pyDivQ (mailingLists : ℚ) total
    pure (some ⟨ps.length, platformCounts, pyRound1 (gRate * 100),
      pyRound1 (giRate * 100), pyRound1 (mlRate * 100), githubIssues,
      mailingLists, stateCounts, mostCommon categoryCounts 10,
      mostCommon orgCounts 10⟩)

/-- Claim C1: `print_results` on a result set with edits checked but zero
policy citations raises a ZeroDivisionError at the statistics line
`total_policy_citations / len(all_policies)` (line 195), contradicting the
spec's division-by-zero guard; the guarded paths do hold: with zero edits it
returns early and normally, and the Eclipse collector's
`generate_statistics` returns the empty dict on no projects and computes all
percentages normally when projects exist. -/
theorem c1_zero_citations_division_raises :
    printResults ⟨[], [], 1, 0, 0, 0⟩ = Except.error zeroDivisionMsg
    ∧ (∃ v, printResults ⟨[], [], 0, 0, 0, 0⟩ = Except.ok v)
    ∧ generateStatistics [] = Except.ok none
    ∧ (∃ v, generateStatistics
        [⟨"n".toList, "id".toList, "Active".toList, [], "GitHub".toList,
          "org".toList, true, false⟩] = Except.ok (some v)) :=
  ⟨rfl, ⟨_, rfl⟩, rfl, ⟨_, rfl⟩⟩

/-- One result of the `list=search` API in `get_afd_discussions_ai`. -/
structure SearchHit where
  title : List Char
  snippet : List Char
  timestamp : List Char
  wordcount : Nat
deriving DecidableEq

/-- One entry appended to `all_discussions`: the hit's fields plus the
keyword whose search produced it. -/
structure AfdDiscussion where
  title : List Char
  snippet : List Char
  keyword : List Char
  timestamp : List Char
  wordcount : Nat
deriving DecidableEq

/-- Console output of `get_afd_discussions_ai`, one entry per print: the
per-keyword search announcement, the found-results line, or the caught
exception's message. -/
inductive AfdLog where
  | searching (kw : List Char)
  | found (results newResults : Nat)
  | fetchError (msg : List Char)
deriving DecidableEq

/-- State threaded through the keyword loop of `get_afd_discussions_ai`:
the `seen_titles` set (as a list), the `all_discussions` accumulator, and
the console log. -/
structure AfdState where
  seen : List (List Char)
  discussions : List AfdDiscussion
  log : List AfdLog
deriving DecidableEq

/-- Inner result loop of one keyword's search: each hit whose title is not
yet in `seen_titles` is recorded (title added to the set, discussion
appended, `new_results` incremented). -/
def addHitsCore (kw : List Char) : List SearchHit → List (List Char) →
    List AfdDiscussion → Nat → List (List Char) × List AfdDiscussion × Nat
  | [], seen, disc, n => (seen, disc, n)
  | h :: hs, seen, disc, n =>
    if h.title ∈ seen then addHitsCore kw hs seen disc n
    else addHitsCore kw hs (h.title :: seen)
      (disc ++ [⟨h.title, h.snippet, kw, h.timestamp, h.wordcount⟩]) (n + 1)

/-- Keyword loop of `get_afd_discussions_ai`: for each keyword print the
announcement, fetch; a raised error is caught, printed, and the loop
continues with the next keyword; a successful response is folded into the
seen-set and discussion list and the found-line printed. -/
def runAfdKeywords (fetch : List Char → Except (List Char) (List SearchHit)) :
    List (List Char) → AfdState → AfdState
  | [], st => st
  | kw :: kws, st =>
    match fetch kw with
    | .error e => runAfdKeywords fetch kws
        ⟨st.seen, st.discussions, st.log ++ [AfdLog.searching kw, AfdLog.fetchError e]⟩
    | .ok hits =>
      let r := addHitsCore kw hits st.seen st.discussions 0
      runAfdKeywords fetch kws
        ⟨r.1, r.2.1, st.log ++ [AfdLog.searching kw, AfdLog.found hits.length r.2.2]⟩

/-- Keyword list hard-coded in `get_afd_discussions_ai`. -/
def afdSearchKeywords : List (List Char) :=
  ["AI-generated", "ChatGPT", "GPT", "language model", "suspected AI",
   "looks like AI", "AI writing"].map String.toList

/-- Embedding of `get_afd_discussions_ai` against a fetch outcome per
keyword. -/
def getAfdDiscussionsAi (fetch : List Char → Except (List Char) (List SearchHit)) :
    AfdState :=
  runAfdKeywords fetch afdSearchKeywords ⟨[], [], []⟩

/-- First keyword, in list order, whose search response contains the given
title (an errored search contains nothing). -/
def firstSearchKeyword (fetch : List Char → Except (List Char) (List SearchHit))
    (kws : List (List Char)) (t : List Char) : Option (List Char) :=
  kws.find? (fun kw =>
    match fetch kw with
    | .ok hits => decide (t ∈ hits.map (fun h => h.title))
    | .error _ => false)

theorem addHitsCore_seen_iff (kw : List Char) (hits : List SearchHit) :
    ∀ seen disc n t,
      t ∈ (addHitsCore kw hits seen disc n).1 ↔
        t ∈ seen ∨ t ∈ hits.map (fun h => h.title) := by
  induction hits with
  | nil => intro seen disc n t; simp [addHitsCore]
  | cons h hs ih =>
    intro seen disc n t
    simp only [addHitsCore]
    by_cases hmem : h.title ∈ seen
    · rw [if_pos hmem, ih]
      simp only [List.map_cons, List.mem_cons]
      constructor
      · tauto
      · rintro (h1 | h1 | h1)
        · exact Or.inl h1
        · exact Or.inl (h1 ▸ hmem)
        · exact Or.inr h1
    · rw [if_neg hmem, ih]
      simp only [List.mem_cons, List.map_cons]
      tauto

theorem addHitsCore_disc_mem (kw : List Char) (hits : List SearchHit) :
    ∀ seen disc n d, d ∈ (addHitsCore kw hits seen disc n).2.1 →
      d ∈ disc ∨
        (d.keyword = kw ∧ d.title ∈ hits.map (fun h => h.title) ∧ d.title ∉ seen) := by
  induction hits with
  | nil => intro seen disc n d hd; exact Or.inl hd
  | cons h hs ih =>
    intro seen disc n d hd
    simp only [addHitsCore] at hd
    by_cases hmem : h.title ∈ seen
    · rw [if_pos hmem] at hd
      rcases ih _ _ _ d hd with h1 | ⟨h1, h2, h3⟩
      · exact Or.inl h1
      · exact Or.inr ⟨h1, by simp only [List.map_cons, List.mem_cons]; exact Or.inr h2, h3⟩
    · rw [if_neg hmem] at hd
      rcases ih _ _ _ d hd with h1 | ⟨h1, h2, h3⟩
      · rcases List.mem_append.1 h1 with h2 | h2
        · exact Or.inl h2
        · right
          rw [List.mem_singleton.1 h2]
          exact ⟨rfl, by simp, hmem⟩
      · right
        refine ⟨h1, by simp only [List.map_cons, List.mem_cons]; exact Or.inr h2, ?_⟩
        intro hx
        exact h3 (List.mem_cons_of_mem _ hx)

theorem addHitsCore_invariant (kw : List Char) (hits : List SearchHit) :
    ∀ seen disc n, (∀ d ∈ disc, d.title ∈ seen) →
      (disc.map (fun d => d.title)).Nodup →
      ((∀ d ∈ (addHitsCore kw hits seen disc n).2.1,
          d.title ∈ (addHitsCore kw hits seen disc n).1) ∧
        ((addHitsCore kw hits seen disc n).2.1.map (fun d => d.title)).Nodup) := by
  induction hits with
  | nil => intro seen disc n hI hN; exact ⟨hI, hN⟩
  | cons h hs ih =>
    intro seen disc n hI hN
    simp only [addHitsCore]
    by_cases hmem : h.title ∈ seen
    · rw [if_pos hmem]; exact ih _ _ _ hI hN
    · rw [if_neg hmem]
      apply ih
      · intro d hd
        rcases List.mem_append.1 hd with h1 | h1
        · exact List.mem_cons_of_mem _ (hI d h1)
        · rw [List.mem_singleton.1 h1]
          exact List.mem_cons_self _ _
      · rw [List.map_append, List.nodup_append]
        refine ⟨hN, by simp, ?_⟩
        intro a ha hb
        simp only [List.map_cons, List.map_nil, List.mem_singleton] at hb
        obtain ⟨d, hd, hda⟩ := List.mem_map.1 ha
        exact hmem (hb ▸ hda ▸ hI d hd)

theorem runAfd_invariant (fetch : List Char → Except (List Char) (List SearchHit)) :
    ∀ kws st,
      (∀ d ∈ st.discussions, d.title ∈ st.seen) →
      (st.discussions.map (fun d => d.title)).Nodup →
      (((runAfdKeywords fetch kws st).discussions.map (fun d => d.title)).Nodup ∧
        ∀ d ∈ (runAfdKeywords fetch kws st).discussions,
          d ∈ st.discussions ∨
            (d.title ∉ st.seen ∧
              firstSearchKeyword fetch kws d.title = some d.keyword)) := by
  intro kws
  induction kws with
  | nil => intro st hI hN; exact ⟨hN, fun d hd => Or.inl hd⟩
  | cons kw kws ih =>
    intro st hI hN
    simp only [runAfdKeywords]
    cases hf : fetch kw with
    | error e =>
      have h := ih ⟨st.seen, st.discussions,
        st.log ++ [AfdLog.searching kw, AfdLog.fetchError e]⟩ hI hN
      refine ⟨h.1, ?_⟩
      intro d hd
      rcases h.2 d hd with h1 | ⟨h1, h2⟩
      · exact Or.inl h1
      · right
        refine ⟨h1, ?_⟩
        simp only [firstSearchKeyword] at h2 ⊢
        rw [List.find?_cons, hf]
        exact h2
    | ok hits =>
      have hinv := addHitsCore_invariant kw hits st.seen st.discussions 0 hI hN
      have h := ih ⟨(addHitsCore kw hits st.seen st.discussions 0).1,
        (addHitsCore kw hits st.seen st.discussions 0).2.1,
        st.log ++ [AfdLog.searching kw,
          AfdLog.found hits.length (addHitsCore kw hits st.seen st.discussions 0).2.2]⟩
        hinv.1 hinv.2
      refine ⟨h.1, ?_⟩
      intro d hd
      rcases h.2 d hd with h1 | ⟨h1, h2⟩
      · rcases addHitsCore_disc_mem kw hits st.seen st.discussions 0 d h1 with
          h2 | ⟨h2, h3, h4⟩
        · exact Or.inl h2
        · right
          refine ⟨h4, ?_⟩
          simp only [firstSearchKeyword]
          rw [List.find?_cons, hf]
          have hd3 : decide (d.title ∈ hits.map (fun h => h.title)) = true := by
            simpa using h3
          dsimp only
          rw [hd3]
          exact congrArg some h2.symm
      · have hseen := addHitsCore_seen_iff kw hits st.seen st.discussions 0 d.title
        have h5 : ¬(d.title ∈ st.seen ∨ d.title ∈ hits.map (fun h => h.title)) :=
          fun hx => h1 (hseen.2 hx)
        push_neg at h5
        right
        refine ⟨h5.1, ?_⟩
        simp only [firstSearchKeyword] at h2 ⊢
        rw [List.find?_cons, hf]
        have hd5 : decide (d.title ∈ hits.map (fun h => h.title)) = false := by
          simpa using h5.2
        dsimp only
        rw [hd5]
        exact h2

/-- Claim C10: the discussion list of `get_afd_discussions_ai` has pairwise
distinct titles (a title found by several keyword searches is recorded
once), and each entry's keyword is the first keyword, in keyword-list
order, whose search response contains that title. -/
theorem c10_dedup_first_keyword
    (fetch : List Char → Except (List Char) (List SearchHit)) :
    (((getAfdDiscussionsAi fetch).discussions.map (fun d => d.title)).Nodup) ∧
    ∀ d ∈ (getAfdDiscussionsAi fetch).discussions,
      firstSearchKeyword fetch afdSearchKeywords d.title = some d.keyword := by
  have h := runAfd_invariant fetch afdSearchKeywords ⟨[], [], []⟩
    (by intro d hd; cases hd) (by simp)
  refine ⟨h.1, ?_⟩
  intro d hd
  rcases h.2 d hd with h1 | ⟨_, h2⟩
  · cases h1
  · exact h2

/-- Claim C10, witness: with a stream whose GPT search returns one title and
the other searches return nothing, the recorded entry's keyword is GPT. -/
theorem c10_witness_gpt :
    firstSearchKeyword
      (fun kw => if kw = "GPT".toList
        then Except.ok [⟨"T1".toList, "s".toList, "ts".toList, 3⟩] else Except.ok [])
      afdSearchKeywords ("T1".toList)
      = some ("GPT".toList) :=
  (c10_dedup_first_keyword
      (fun kw => if kw = "GPT".toList
        then Except.ok [⟨"T1".toList, "s".toList, "ts".toList, 3⟩] else Except.ok [])).2
    ⟨"T1".toList, "s".toList, "GPT".toList, "ts".toList, 3⟩ (by decide)

theorem runAfd_error_as_empty (fetch : List Char → Except (List Char) (List SearchHit))
    (kwBad : List Char) (e : List Char) (hbad : fetch kwBad = Except.error e) :
    ∀ kws st1 st2, st1.seen = st2.seen → st1.discussions = st2.discussions →
      ((runAfdKeywords fetch kws st1).seen
          = (runAfdKeywords
              (fun kw => if kw = kwBad then Except.ok [] else fetch kw) kws st2).seen ∧
        (runAfdKeywords fetch kws st1).discussions
          = (runAfdKeywords
              (fun kw => if kw = kwBad then Except.ok [] else fetch kw) kws st2).discussions) := by
  intro kws
  induction kws with
  | nil => intro st1 st2 h1 h2; exact ⟨h1, h2⟩
  | cons kw kws ih =>
    intro st1 st2 h1 h2
    simp only [runAfdKeywords]
    by_cases hkw : kw = kwBad
    · subst hkw
      rw [hbad, if_pos rfl]
      dsimp only
      exact ih _ _ (by dsimp only; rw [h1]; rfl) (by dsimp only; rw [h2]; rfl)
    · rw [if_neg hkw]
      cases hf : fetch kw with
      | error e2 =>
        dsimp only
        exact ih _ _ (by dsimp only; exact h1) (by dsimp only; exact h2)
      | ok hits =>
        dsimp only
        rw [h1, h2] at *
        exact ih _ _ rfl rfl

theorem runAfd_log_extends (fetch : List Char → Except (List Char) (List SearchHit)) :
    ∀ kws st, ∃ tail, (runAfdKeywords fetch kws st).log = st.log ++ tail := by
  intro kws
  induction kws with
  | nil => intro st; exact ⟨[], by simp [runAfdKeywords]⟩
  | cons kw kws ih =>
    intro st
    simp only [runAfdKeywords]
    cases hf : fetch kw with
    | error e =>
      obtain ⟨tail, htail⟩ := ih ⟨st.seen, st.discussions,
        st.log ++ [AfdLog.searching kw, AfdLog.fetchError e]⟩
      exact ⟨[AfdLog.searching kw, AfdLog.fetchError e] ++ tail,
        by rw [htail]; simp [List.append_assoc]⟩
    | ok hits =>
      obtain ⟨tail, htail⟩ := ih ⟨(addHitsCore kw hits st.seen st.discussions 0).1,
        (addHitsCore kw hits st.seen st.discussions 0).2.1,
        st.log ++ [AfdLog.searching kw,
          AfdLog.found hits.length (addHitsCore kw hits st.seen st.discussions 0).2.2]⟩
      exact ⟨[AfdLog.searching kw,
          AfdLog.found hits.length (addHitsCore kw hits st.seen st.discussions 0).2.2] ++ tail,
        by rw [htail]; simp [List.append_assoc]⟩

theorem runAfd_error_logged (fetch : List Char → Except (List Char) (List SearchHit)) :
    ∀ kws st kw e, kw ∈ kws → fetch kw = Except.error e →
      ∃ pre post, (runAfdKeywords fetch kws st).log
        = st.log ++ pre ++ [AfdLog.searching kw, AfdLog.fetchError e] ++ post := by
  intro kws
  induction kws with
  | nil => intro st kw e hkw _; cases hkw
  | cons kw0 kws ih =>
    intro st kw e hkw hferr
    simp only [runAfdKeywords]
    by_cases heq : kw0 = kw
    · subst heq
      rw [hferr]
      obtain ⟨tail, htail⟩ := runAfd_log_extends fetch kws
        ⟨st.seen, st.discussions, st.log ++ [AfdLog.searching kw0, AfdLog.fetchError e]⟩
      refine ⟨[], tail, ?_⟩
      rw [htail]
      simp [List.append_assoc]
    · have hkw2 : kw ∈ kws := (List.mem_cons.1 hkw).resolve_left (fun h => heq h.symm)
      cases hf : fetch kw0 with
      | error e0 =>
        obtain ⟨pre, post, hpp⟩ := ih _ kw e hkw2 hferr
        refine ⟨[AfdLog.searching kw0, AfdLog.fetchError e0] ++ pre, post, ?_⟩
        rw [hpp]
        simp [List.append_assoc]
      | ok hits =>
        obtain ⟨pre, post, hpp⟩ := ih _ kw e hkw2 hferr
        refine ⟨[AfdLog.searching kw0,
          AfdLog.found hits.length (addHitsCore kw0 hits st.seen st.discussions 0).2.2] ++ pre,
          post, ?_⟩
        rw [hpp]
        simp [List.append_assoc]

theorem searchLoop_error_as_empty_page (fetch : Nat → Except (List Char) RCResponse)
    (k0 : Nat) (e : List Char) (hbad : fetch k0 = Except.error e) :
    ∀ budget st, (searchLoopAux fetch budget st).1
      = (searchLoopAux
          (fun k => if k = k0 then Except.ok ⟨[], false⟩ else fetch k) budget st).1 := by
  intro budget
  induction budget with
  | zero => intro st; rfl
  | succ b ih =>
    intro st
    simp only [searchLoopAux]
    by_cases hk : st.fetchCalls = k0
    · rw [hk, hbad, if_pos rfl]
      rfl
    · rw [if_neg hk]
      cases hf : fetch st.fetchCalls with
      | error e2 => rfl
      | ok resp =>
        dsimp only
        by_cases hc : resp.changes = []
        · rw [if_pos hc, if_pos hc]
        · rw [if_neg hc, if_neg hc]
          by_cases ht : resp.contToken = true
          · rw [if_pos ht, if_pos ht]
            exact ih _
          · rw [if_neg ht, if_neg ht]

theorem searchLoop_error_batch_context (fetch : Nat → Except (List Char) RCResponse) :
    ∀ k budget st e, k < budget →
      (∀ m, m < k → ∃ r, fetch (st.fetchCalls + m) = Except.ok r ∧
        r.changes ≠ [] ∧ r.contToken = true) →
      fetch (st.fetchCalls + k) = Except.error e →
      (searchLoopAux fetch budget st).2
        = some (st.batchesProcessed + (k + 1), e) := by
  intro k
  induction k with
  | zero =>
    intro budget st e hk hpre herr
    cases budget with
    | zero => omega
    | succ b =>
      rw [Nat.add_zero] at herr
      simp only [searchLoopAux, herr]
  | succ k2 ih =>
    intro budget st e hk hpre herr
    cases budget with
    | zero => omega
    | succ b =>
      simp only [searchLoopAux]
      obtain ⟨r, hr, hc, ht⟩ := hpre 0 (by omega)
      rw [Nat.add_zero] at hr
      rw [hr]
      dsimp only
      rw [if_neg hc, if_pos ht]
      refine Eq.trans (ih b _ e (by omega) ?_ ?_) ?_
      · intro m hm
        obtain ⟨r2, hr2, hc2, ht2⟩ := hpre (m + 1) (by omega)
        refine ⟨r2, ?_, hc2, ht2⟩
        rw [foldl_processComment_fetchCalls]
        rw [← hr2]
        congr 1
        dsimp only
        omega
      · rw [foldl_processComment_fetchCalls]
        rw [← herr]
        congr 1
        dsimp only
        omega
      · rw [foldl_processComment_batches]
        have harith : (⟨st.allPolicies, st.aiPolicies, st.totalEdits,
            st.editsWithPolicies, st.batchesProcessed + 1,
            st.fetchCalls + 1⟩ : SearchState).batchesProcessed + (k2 + 1)
            = st.batchesProcessed + (k2 + 1 + 1) := by
          dsimp only
          omega
        rw [harith]

/-- Claim C9: fetch failures are handled locally.  In
`get_afd_discussions_ai`, a keyword whose search raised contributes exactly
the data an empty result page would (the run's seen-set and discussion list
are unchanged if the error is replaced by an empty response, and all other
keywords are still processed), and the log contains, contiguously, the
search announcement for that keyword followed by the error message.  In
`search_edit_summaries_2025`, a fetch failing at ANY call index is caught:
the run's entire accumulated state (policy counters, edit counts, batch and
call counts) equals that of the run in which that one response is an empty
result page instead — so all data accumulated before the failure is kept
and the failed request alone contributes zero data — and whenever the loop
reaches a failing batch, the caught error is recorded together with that
batch's number (the printed request context). -/
theorem c9_fetch_error_local_recovery :
    (∀ (fetch : List Char → Except (List Char) (List SearchHit)) kwBad e,
      fetch kwBad = Except.error e →
      (getAfdDiscussionsAi fetch).discussions
        = (getAfdDiscussionsAi
            (fun kw => if kw = kwBad then Except.ok [] else fetch kw)).discussions)
    ∧ (∀ (fetch : List Char → Except (List Char) (List SearchHit)) kw e,
        kw ∈ afdSearchKeywords → fetch kw = Except.error e →
        ∃ pre post, (getAfdDiscussionsAi fetch).log
          = pre ++ [AfdLog.searching kw, AfdLog.fetchError e] ++ post)
    ∧ (∀ (fetch : Nat → Except (List Char) RCResponse) (k0 : Nat) (e : List Char)
        (maxB : Nat), fetch k0 = Except.error e →
        (searchEditSummaries fetch maxB).1
          = (searchEditSummaries
              (fun k => if k = k0 then Except.ok ⟨[], false⟩ else fetch k) maxB).1)
    ∧ (∀ (fetch : Nat → Except (List Char) RCResponse) maxB k e,
        k < maxB →
        (∀ m, m < k → ∃ r, fetch m = Except.ok r ∧
          r.changes ≠ [] ∧ r.contToken = true) →
        fetch k = Except.error e →
        (searchEditSummaries fetch maxB).2 = some (k + 1, e)) := by
  refine ⟨?_, ?_, ?_, ?_⟩
  · intro fetch kwBad e hbad
    exact (runAfd_error_as_empty fetch kwBad e hbad afdSearchKeywords
      ⟨[], [], []⟩ ⟨[], [], []⟩ rfl rfl).2
  · intro fetch kw e hkw hferr
    obtain ⟨pre, post, hpp⟩ := runAfd_error_logged fetch afdSearchKeywords
      ⟨[], [], []⟩ kw e hkw hferr
    exact ⟨pre, post, by simpa using hpp⟩
  · intro fetch k0 e maxB hbad
    exact searchLoop_error_as_empty_page fetch k0 e hbad maxB initialSearchState
  · intro fetch maxB k e hk hpre herr
    have h := searchLoop_error_batch_context fetch k maxB initialSearchState e hk
      (by simpa [initialSearchState] using hpre) (by simpa [initialSearchState] using herr)
    simpa [initialSearchState] using h

/-- Claim C9, witness: concrete instance with the GPT search failing — its
failure is equivalent to an empty response, and the loop still returns the
other keywords' data. -/
theorem c9_witness_gpt_error :
    (getAfdDiscussionsAi (fun kw =>
        if kw = "GPT".toList then Except.error ("boom".toList) else Except.ok [])).discussions
      = (getAfdDiscussionsAi (fun kw =>
          if kw = "GPT".toList then Except.ok []
          else if kw = "GPT".toList then Except.error ("boom".toList)
          else Except.ok [])).discussions :=
  c9_fetch_error_local_recovery.1
    (fun kw => if kw = "GPT".toList then Except.error ("boom".toList) else Except.ok [])
    ("GPT".toList) ("boom".toList) rfl

end CommAIGov
